import Mathlib

/-!
Verification of the core geometry, k-means clustering, and k-d tree
components of the `dither` repository, over a shallow embedding in which
floating-point values are modelled as rationals and Go slices as lists.
Concurrency in the clustering engine only permutes the order in which
points are appended to their clusters or changes are merged, so the
sequential embedding below has the same cluster contents (as multisets)
and the same sums and maxima as the parallel code.
-/

namespace Dither

/-- `geom.Point`: a coordinate vector with an identifier. -/
structure Point where
  Coordinates : List ℚ
  ID : ℤ
deriving DecidableEq

/-- `geom.PointSet`: a slice of points. -/
structure PointSet where
  Points : List Point
deriving DecidableEq

/-- `geom.Bounds`: lower and upper bound for one dimension. -/
structure Bounds where
  Lower : ℚ
  Upper : ℚ
deriving DecidableEq

/-- The zero value of `geom.Point` (`var p geom.Point`). -/
def zeroPoint : Point := ⟨[], 0⟩

/-- `(*Point).Dimension`: number of coordinates. -/
def Point.Dimension (p : Point) : ℕ := p.Coordinates.length

/-- Read coordinate `i` of a point (Go `p.Coordinates[i]`; the Go code
panics when out of range, the claims below only use in-range indices). -/
def coordD (p : Point) (i : ℕ) : ℚ := p.Coordinates.getD i 0

/-- `(*PointSet).Kardinality`. -/
def PointSet.Kardinality (ps : PointSet) : ℕ := ps.Points.length

/-- The comparison used by `(*PointSet).SortByAxis`, as a total preorder
(the Go code hands the strict `<` on one coordinate to `sort.Slice`). -/
def axisLe (axis : ℕ) (a b : Point) : Prop := coordD a axis ≤ coordD b axis

instance (axis : ℕ) : DecidableRel (axisLe axis) := fun a b =>
  inferInstanceAs (Decidable (coordD a axis ≤ coordD b axis))

instance (axis : ℕ) : IsTotal Point (axisLe axis) :=
  ⟨fun a b => le_total (coordD a axis) (coordD b axis)⟩

instance (axis : ℕ) : IsTrans Point (axisLe axis) :=
  ⟨fun _ _ _ hab hbc => le_trans hab hbc⟩

/-- `(*PointSet).SortByAxis`: sort ascending on one coordinate.
Go's `sort.Slice` sorts in place and is unstable; any sorted permutation
is a faithful model, we use insertion sort. -/
def PointSet.SortByAxis (ps : PointSet) (axis : ℕ) : PointSet :=
  ⟨ps.Points.insertionSort (axisLe axis)⟩

/-- `(*PointSet).BranchByMedian`: sort on `axis`, split at the middle index,
return (left half, right half, median point).  The sorted receiver is
`ps.SortByAxis axis`, and `left`/`right` are its sub-slices. -/
def PointSet.BranchByMedian (ps : PointSet) (axis : ℕ) :
    PointSet × PointSet × Point :=
  let sorted := ps.SortByAxis axis
  let medianIndex := sorted.Points.length / 2
  (⟨sorted.Points.take medianIndex⟩,
   ⟨sorted.Points.drop (medianIndex + 1)⟩,
   sorted.Points.getD medianIndex zeroPoint)

/-- `geom.EuclidianDistance`: sum of squared coordinate differences
(no square root in the source). -/
def EuclidianDistance (pnt1 pnt2 : Point) : ℚ :=
  ((List.range pnt1.Coordinates.length).map
    (fun index => (coordD pnt1 index - coordD pnt2 index) ^ 2)).sum

/-- `geom.RedMeanDistance`: perceptual color distance on 3 channels. -/
def RedMeanDistance (pnt1 pnt2 : Point) : ℚ :=
  let redMean := (coordD pnt1 0 + coordD pnt2 0) / 2
  (2 + redMean / 256) * (coordD pnt1 0 - coordD pnt2 0) ^ 2
    + 4 * (coordD pnt1 1 - coordD pnt2 1) ^ 2
    + (2 + (255 - redMean) / 256) * (coordD pnt1 2 - coordD pnt2 2) ^ 2

/-- The inner loop of `(*PointSet).Mean`: add `c / n` to each accumulator
slot, one coordinate at a time (`meanCoords[i] += point.Coordinates[i] / n`). -/
def addDiv (n : ℚ) : List ℚ → List ℚ → List ℚ
  | acc, [] => acc
  | [], _ :: _ => []
  | a :: as, c :: cs => (a + c / n) :: addDiv n as cs

/-- `(*PointSet).Mean`: component-wise average; the empty set yields the
empty-coordinate zero point. -/
def PointSet.Mean (ps : PointSet) : Point :=
  if ps.Points.length = 0 then ⟨[], 0⟩
  else
    let n : ℚ := ps.Points.length
    let meanCoords := ps.Points.foldl
      (fun acc point => addDiv n acc point.Coordinates)
      (List.replicate (ps.Points.getD 0 zeroPoint).Dimension (0 : ℚ))
    ⟨meanCoords, 0⟩

/-- `(*PointSet).LowerAndUpperBounds`: per-dimension min and max,
seeded with the first point's coordinate. -/
def PointSet.LowerAndUpperBounds (ps : PointSet) : List Bounds :=
  if ps.Points.length < 1 then []
  else
    let p0 := ps.Points.getD 0 zeroPoint
    (List.range p0.Dimension).map (fun coordNum =>
      ⟨ps.Points.foldl (fun acc p => min acc (coordD p coordNum)) (coordD p0 coordNum),
       ps.Points.foldl (fun acc p => max acc (coordD p coordNum)) (coordD p0 coordNum)⟩)

/-! ### Properties of `SortByAxis` and `BranchByMedian` -/

lemma sortByAxis_perm (ps : PointSet) (axis : ℕ) :
    (ps.SortByAxis axis).Points.Perm ps.Points :=
  List.perm_insertionSort (axisLe axis) ps.Points

lemma sortByAxis_sorted (ps : PointSet) (axis : ℕ) :
    List.Sorted (axisLe axis) (ps.SortByAxis axis).Points :=
  List.sorted_insertionSort (axisLe axis) ps.Points

lemma sortByAxis_length (ps : PointSet) (axis : ℕ) :
    (ps.SortByAxis axis).Points.length = ps.Points.length :=
  List.length_insertionSort (axisLe axis) ps.Points

lemma branchByMedian_decomp (ps : PointSet) (axis : ℕ) (h : ps.Points ≠ []) :
    (ps.BranchByMedian axis).1.Points
      ++ (ps.BranchByMedian axis).2.2 :: (ps.BranchByMedian axis).2.1.Points
      = (ps.SortByAxis axis).Points := by
  have hlen : (ps.SortByAxis axis).Points.length = ps.Points.length :=
    sortByAxis_length ps axis
  have hpos : 0 < ps.Points.length := List.length_pos.mpr h
  have hm : ps.Points.length / 2 < (ps.SortByAxis axis).Points.length := by
    rw [hlen]
    exact Nat.div_lt_of_lt_mul (by omega)
  simp only [PointSet.BranchByMedian, sortByAxis_length]
  rw [List.getD_eq_getElem _ _ hm]
  rw [← List.drop_eq_getElem_cons hm, List.take_append_drop]

/-- C6: `BranchByMedian(axis)` on a non-empty set of `n` same-dimension
points returns `left` and `right` with `|left| + |right| = n - 1`, every
left point having its `axis` coordinate `≤` the pivot's and every right
point `≥` the pivot's. -/
theorem branchByMedian_partition (ps : PointSet) (axis d : ℕ)
    (hne : ps.Points ≠ []) (hdim : ∀ p ∈ ps.Points, p.Dimension = d)
    (haxis : axis < d) :
    (ps.BranchByMedian axis).1.Kardinality
        + (ps.BranchByMedian axis).2.1.Kardinality = ps.Kardinality - 1
      ∧ (∀ p ∈ (ps.BranchByMedian axis).1.Points,
          coordD p axis ≤ coordD (ps.BranchByMedian axis).2.2 axis)
      ∧ (∀ p ∈ (ps.BranchByMedian axis).2.1.Points,
          coordD (ps.BranchByMedian axis).2.2 axis ≤ coordD p axis) := by
  have hdec := branchByMedian_decomp ps axis hne
  have hsort := sortByAxis_sorted ps axis
  rw [← hdec] at hsort
  rw [List.Sorted, List.pairwise_append] at hsort
  obtain ⟨-, hright, hcross⟩ := hsort
  refine ⟨?_, ?_, ?_⟩
  · have hpos : 0 < ps.Points.length := List.length_pos.mpr hne
    have hm : ps.Points.length / 2 < ps.Points.length :=
      Nat.div_lt_of_lt_mul (by omega)
    simp only [PointSet.BranchByMedian, PointSet.Kardinality,
      List.length_take, List.length_drop, sortByAxis_length]
    omega
  · intro p hp
    exact hcross p hp _ (List.mem_cons_self _ _)
  · intro p hp
    exact (List.pairwise_cons.mp hright).1 p hp

/-- C10: `BranchByMedian` sorts its receiver in place: the post-state of the
receiver is the sorted permutation `SortByAxis`, and the returned `left` and
`right` are its contiguous sub-slices around the pivot
(`left ++ pivot :: right` is exactly the reordered slice). -/
theorem branchByMedian_receiver_sorted (ps : PointSet) (axis d : ℕ)
    (hne : ps.Points ≠ []) (hdim : ∀ p ∈ ps.Points, p.Dimension = d)
    (haxis : axis < d) :
    (ps.SortByAxis axis).Points.Perm ps.Points
      ∧ List.Sorted (axisLe axis) (ps.SortByAxis axis).Points
      ∧ (ps.BranchByMedian axis).1.Points
          ++ (ps.BranchByMedian axis).2.2 :: (ps.BranchByMedian axis).2.1.Points
          = (ps.SortByAxis axis).Points :=
  ⟨sortByAxis_perm ps axis, sortByAxis_sorted ps axis,
    branchByMedian_decomp ps axis hne⟩

/-! ### Properties of `Mean` -/

lemma addDiv_one_replicate (cs : List ℚ) :
    addDiv 1 (List.replicate cs.length (0 : ℚ)) cs = cs := by
  induction cs with
  | nil => rfl
  | cons c cs ih =>
    simp only [List.length_cons, List.replicate_succ, addDiv, ih]
    norm_num

/-- C7: the mean of a single-point set has exactly that point's
coordinates (each coordinate is `0 + c / 1 = c`, with no deviation). -/
theorem mean_singleton (p : Point) :
    (PointSet.Mean ⟨[p]⟩).Coordinates = p.Coordinates := by
  simp only [PointSet.Mean, List.length_cons, List.length_nil]
  norm_num [List.foldl, Point.Dimension, addDiv_one_replicate]

/-! ### The k-means clustering engine (`kmeans` package)

Randomness (`rand.Float32`) is modelled by oracle functions supplying the
drawn values in `[0,1]`; theorems quantify over the oracle.  The parallel
assignment merges chunk results under a mutex, which only permutes the
order of points inside each cluster, and the parallel update writes
disjoint slots; the sequential embedding below is observationally
equivalent for the sums, lengths and maxima the claims speak about. -/

/-- `kmeans.Clustering`. -/
structure Clustering where
  KMeans : PointSet
  points : PointSet
  k : ℕ
  Clusters : List PointSet
  maxDist : ℚ
  distanceMetric : Point → Point → ℚ

/-- `kmeans.iterationLimit`: the hard iteration cap. -/
def iterationLimit : ℕ := 100

/-- The loop of `kmeans.ClosestMeanIndex`: scan the means carrying
`(minDist, bestIndex)`, overwriting at index 0 and on strict improvement. -/
def closestAux (metric : Point → Point → ℚ) (pt : Point) :
    List Point → ℕ → ℚ → ℕ → ℕ
  | [], _, _, bestIndex => bestIndex
  | m :: ms, meanIndex, minDist, bestIndex =>
    let dist := metric pt m
    if meanIndex = 0 then closestAux metric pt ms (meanIndex + 1) dist meanIndex
    else if dist < minDist then closestAux metric pt ms (meanIndex + 1) dist meanIndex
    else closestAux metric pt ms (meanIndex + 1) minDist bestIndex

/-- `kmeans.ClosestMeanIndex`: index of the mean closest to point
number `pointIndex` (first index wins ties, by the strict `<`). -/
def ClosestMeanIndex (KM : Clustering) (pointIndex : ℕ) : ℕ :=
  closestAux KM.distanceMetric (KM.points.Points.getD pointIndex zeroPoint)
    KM.KMeans.Points 0 0 0

/-- `(*Clustering).assign`: reset the clusters to `k` empty sets and append
every point to the cluster of its closest mean.  (The goroutine chunking
only changes the append order inside each cluster.) -/
def Clustering.assign (KM : Clustering) : Clustering :=
  let newClusters := (List.range KM.points.Points.length).foldl
    (fun cl pointIndex =>
      cl.set (ClosestMeanIndex KM pointIndex)
        ⟨(cl.getD (ClosestMeanIndex KM pointIndex) ⟨[]⟩).Points
          ++ [KM.points.Points.getD pointIndex zeroPoint]⟩)
    (List.replicate KM.k (⟨[]⟩ : PointSet))
  ⟨KM.KMeans, KM.points, KM.k, newClusters, KM.maxDist, KM.distanceMetric⟩

/-- `kmeans.createRandomStart`: `k` points drawn in the bounding box,
`rnd i dimNum` standing for the `rand.Float32()` draws. -/
def createRandomStart (rnd : ℕ → ℕ → ℚ) (points : PointSet) (k : ℕ) :
    PointSet :=
  let bounds := points.LowerAndUpperBounds
  if bounds.length < 1 then ⟨[]⟩
  else
    let dim := (points.Points.getD 0 zeroPoint).Dimension
    ⟨(List.range k).map (fun i =>
      ⟨(List.range dim).map (fun dimNum =>
        let low := (bounds.getD dimNum ⟨0, 0⟩).Lower
        let upp := (bounds.getD dimNum ⟨0, 0⟩).Upper
        rnd i dimNum * (upp - low) + low), 0⟩)⟩

/-- `(*Clustering).update`: replace each mean by its cluster's mean, or by
a fresh random point when the mean came back empty (empty cluster);
return the new state together with the maximum recorded change. -/
def Clustering.update (rnd : ℕ → ℕ → ℕ → ℚ) (KM : Clustering) :
    Clustering × ℚ :=
  let newKMeans := (List.range KM.Clusters.length).foldl
    (fun kms clusterID =>
      kms.set clusterID
        (if ((KM.Clusters.getD clusterID ⟨[]⟩).Mean).Coordinates.length = 0
         then (createRandomStart (rnd clusterID) KM.points 1).Points.getD 0 zeroPoint
         else (KM.Clusters.getD clusterID ⟨[]⟩).Mean))
    KM.KMeans.Points
  let changes := (List.range KM.Clusters.length).map (fun clusterID =>
    KM.distanceMetric (KM.KMeans.Points.getD clusterID zeroPoint)
      (newKMeans.getD clusterID zeroPoint))
  (⟨⟨newKMeans⟩, KM.points, KM.k, KM.Clusters, KM.maxDist, KM.distanceMetric⟩,
   changes.foldl max 0)

/-- `(*Clustering).TotalDist`: sum over the means of the distances from the
points of the matching cluster to that mean. -/
def Clustering.TotalDist (KM : Clustering) : ℚ :=
  ((List.range KM.KMeans.Points.length).map (fun meanIndex =>
    (((KM.Clusters.getD meanIndex ⟨[]⟩).Points).map (fun p =>
      KM.distanceMetric (KM.KMeans.Points.getD meanIndex zeroPoint) p)).sum)).sum

/-- `(*Clustering).iterate`: one assignment plus update step; the boolean is
the accuracy test `(maxChange * 100 / maxDist) < accuracy`. -/
def Clustering.iterate (rnd : ℕ → ℕ → ℕ → ℚ) (accuracy : ℚ)
    (KM : Clustering) : Clustering × Bool :=
  let stepped := (KM.assign).update rnd
  (stepped.1, decide (stepped.2 * 100 / KM.maxDist < accuracy))

/-- `kmeans.CreateKMeansProblem`: random initial means, `k` empty clusters,
and the distance across the bounding hyper-box as `maxDist`. -/
def CreateKMeansProblem (rnd0 : ℕ → ℕ → ℚ) (points : PointSet) (k : ℕ)
    (distanceMetric : Point → Point → ℚ) : Clustering :=
  let kMeans := createRandomStart rnd0 points k
  let initClusters := List.replicate k (⟨[]⟩ : PointSet)
  let bounds := points.LowerAndUpperBounds
  let point1 : Point :=
    ⟨(List.range (points.Points.getD 0 zeroPoint).Dimension).map
      (fun dim => (bounds.getD dim ⟨0, 0⟩).Lower), 0⟩
  let point2 : Point :=
    ⟨(List.range (points.Points.getD 0 zeroPoint).Dimension).map
      (fun dim => (bounds.getD dim ⟨0, 0⟩).Upper), 0⟩
  ⟨kMeans, points, k, initClusters, distanceMetric point1 point2, distanceMetric⟩

/-- The loop of `(*Clustering).Cluster`, with the oracle `R` indexed by the
iteration counter; returns the final state and the number of iterations
performed. -/
def clusterAux (R : ℕ → ℕ → ℕ → ℕ → ℚ) (accuracy : ℚ)
    (consecutiveTimes : ℤ) (KM : Clustering) (consecutiveDone : ℤ)
    (count : ℕ) : Clustering × ℕ :=
  if consecutiveDone < consecutiveTimes ∧ count < iterationLimit then
    let stepped := KM.iterate (R count) accuracy
    clusterAux R accuracy consecutiveTimes stepped.1
      (if stepped.2 then consecutiveDone + 1 else 0) (count + 1)
  else (KM, count)
termination_by iterationLimit - count
decreasing_by omega

/-- `(*Clustering).Cluster`: run iterations until the accuracy criterion has
held `consecutiveTimes` times in a row or the iteration cap is reached. -/
def Clustering.Cluster (R : ℕ → ℕ → ℕ → ℕ → ℚ) (accuracy : ℚ)
    (consecutiveTimes : ℤ) (KM : Clustering) : Clustering × ℕ :=
  clusterAux R accuracy consecutiveTimes KM 0 0

/-- The state after `i` completed iterations. -/
def stateAt (R : ℕ → ℕ → ℕ → ℕ → ℚ) (accuracy : ℚ) (KM : Clustering) :
    ℕ → Clustering
  | 0 => KM
  | i + 1 => ((stateAt R accuracy KM i).iterate (R i) accuracy).1

/-- Whether iteration `i + 1` (0-based `i`) meets the accuracy criterion. -/
def metAt (R : ℕ → ℕ → ℕ → ℕ → ℚ) (accuracy : ℚ) (KM : Clustering)
    (i : ℕ) : Bool :=
  ((stateAt R accuracy KM i).iterate (R i) accuracy).2

/-- Length of the run of consecutive convergent iterations ending after
`t` completed iterations (resets to zero on any failing iteration). -/
def streak (R : ℕ → ℕ → ℕ → ℕ → ℚ) (accuracy : ℚ) (KM : Clustering) :
    ℕ → ℕ
  | 0 => 0
  | t + 1 => if metAt R accuracy KM t then streak R accuracy KM t + 1 else 0

/-! ### The assignment step picks the least index attaining the minimum -/

lemma closestAux_spec (metric : Point → Point → ℚ) (pt : Point)
    (full : List Point) :
    ∀ (ms : List Point) (idx : ℕ) (minDist : ℚ) (best : ℕ),
      full.drop idx = ms → 0 < idx → best < idx → best < full.length →
      minDist = metric pt (full.getD best zeroPoint) →
      (∀ j < idx, minDist ≤ metric pt (full.getD j zeroPoint)) →
      (∀ j < best, minDist < metric pt (full.getD j zeroPoint)) →
      closestAux metric pt ms idx minDist best < full.length
        ∧ (∀ j < full.length,
            metric pt (full.getD (closestAux metric pt ms idx minDist best) zeroPoint)
              ≤ metric pt (full.getD j zeroPoint))
        ∧ (∀ j < closestAux metric pt ms idx minDist best,
            metric pt (full.getD (closestAux metric pt ms idx minDist best) zeroPoint)
              < metric pt (full.getD j zeroPoint)) := by
  intro ms
  induction ms with
  | nil =>
    intro idx minDist best hdrop hidx hbest hbestlen hmin hle hlt
    have hlen : full.length ≤ idx := by
      have := congrArg List.length hdrop
      simp only [List.length_drop, List.length_nil] at this
      omega
    have hnil : closestAux metric pt [] idx minDist best = best := rfl
    rw [hnil]
    refine ⟨hbestlen, ?_, ?_⟩
    · intro j hj
      rw [← hmin]
      exact hle j (by omega)
    · intro j hj
      rw [← hmin]
      exact hlt j hj
  | cons m rest ih =>
    intro idx minDist best hdrop hidx hbest hbestlen hmin hle hlt
    have hidxlt : idx < full.length := by
      by_contra hcon
      push_neg at hcon
      rw [List.drop_eq_nil_of_le hcon] at hdrop
      exact List.noConfusion hdrop
    have hdropc : full.drop idx = full.getD idx zeroPoint :: full.drop (idx + 1) := by
      rw [List.getD_eq_getElem full zeroPoint hidxlt]
      exact List.drop_eq_getElem_cons hidxlt
    rw [hdropc] at hdrop
    obtain ⟨hm, hrest⟩ : m = full.getD idx zeroPoint ∧ full.drop (idx + 1) = rest := by
      cases hdrop
      exact ⟨rfl, rfl⟩
    simp only [closestAux, Nat.pos_iff_ne_zero.mp hidx, if_false]
    by_cases hcmp : metric pt m < minDist
    · rw [if_pos hcmp]
      refine ih (idx + 1) (metric pt m) idx hrest (by omega) (by omega) hidxlt
        (by rw [hm]) ?_ ?_
      · intro j hj
        rcases Nat.lt_succ_iff_lt_or_eq.mp hj with hj' | hj'
        · exact le_of_lt (lt_of_lt_of_le hcmp (hle j hj'))
        · subst hj'; rw [hm]
      · intro j hj
        exact lt_of_lt_of_le hcmp (hle j hj)
    · rw [if_neg hcmp]
      refine ih (idx + 1) minDist best hrest (by omega) (by omega) hbestlen hmin
        ?_ hlt
      intro j hj
      rcases Nat.lt_succ_iff_lt_or_eq.mp hj with hj' | hj'
      · exact hle j hj'
      · subst hj'
        rw [← hm]
        exact not_lt.mp hcmp

/-- C5: `ClosestMeanIndex` returns a valid index of a centroid at minimum
distance from the point under the configured metric, and the smallest such
index: every earlier centroid is at a strictly larger distance (the
comparison in the loop is the strict `<`). -/
theorem closestMeanIndex_least_argmin (KM : Clustering) (pointIndex : ℕ)
    (hne : KM.KMeans.Points ≠ [])
    (hpi : pointIndex < KM.points.Points.length) :
    ClosestMeanIndex KM pointIndex < KM.KMeans.Points.length
      ∧ (∀ j < KM.KMeans.Points.length,
          KM.distanceMetric (KM.points.Points.getD pointIndex zeroPoint)
              (KM.KMeans.Points.getD (ClosestMeanIndex KM pointIndex) zeroPoint)
            ≤ KM.distanceMetric (KM.points.Points.getD pointIndex zeroPoint)
              (KM.KMeans.Points.getD j zeroPoint))
      ∧ (∀ j < ClosestMeanIndex KM pointIndex,
          KM.distanceMetric (KM.points.Points.getD pointIndex zeroPoint)
              (KM.KMeans.Points.getD (ClosestMeanIndex KM pointIndex) zeroPoint)
            < KM.distanceMetric (KM.points.Points.getD pointIndex zeroPoint)
              (KM.KMeans.Points.getD j zeroPoint)) := by
  obtain ⟨m0, ms, hfull⟩ : ∃ m0 ms, KM.KMeans.Points = m0 :: ms :=
    List.exists_cons_of_ne_nil hne
  have hstep : ClosestMeanIndex KM pointIndex
      = closestAux KM.distanceMetric
          (KM.points.Points.getD pointIndex zeroPoint) ms 1
          (KM.distanceMetric (KM.points.Points.getD pointIndex zeroPoint) m0) 0 := by
    rw [ClosestMeanIndex, hfull]
    simp [closestAux]
  have hm0 : m0 = KM.KMeans.Points.getD 0 zeroPoint := by rw [hfull]; rfl
  have hdrop : KM.KMeans.Points.drop 1 = ms := by rw [hfull]; rfl
  have := closestAux_spec KM.distanceMetric
    (KM.points.Points.getD pointIndex zeroPoint) KM.KMeans.Points ms 1
    (KM.distanceMetric (KM.points.Points.getD pointIndex zeroPoint) m0) 0
    hdrop (by omega) (by omega) (by rw [hfull]; simp) (by rw [hm0])
    (by intro j hj; interval_cases j; rw [hm0])
    (by intro j hj; omega)
  rw [← hstep] at this
  exact this

/-! ### Generic list lemmas for the in-place updates of the engine -/

lemma getD_set_eq (l : List Point) (i : ℕ) (a d : Point) (hi : i < l.length) :
    (l.set i a).getD i d = a := by
  rw [List.getD_eq_getElem?_getD, List.getElem?_set_self (by exact hi)]
  rfl

lemma getD_set_ne (l : List Point) (i j : ℕ) (a d : Point) (h : i ≠ j) :
    (l.set i a).getD j d = l.getD j d := by
  rw [List.getD_eq_getElem?_getD, List.getElem?_set_ne h,
    ← List.getD_eq_getElem?_getD]

lemma foldl_length_invariant {α β : Type} (xs : List α)
    (step : List β → α → List β)
    (h : ∀ cl x, (step cl x).length = cl.length) :
    ∀ l : List β, (xs.foldl step l).length = l.length := by
  induction xs with
  | nil => intro l; rfl
  | cons x xs ih =>
    intro l
    rw [List.foldl_cons, ih, h]

lemma foldl_range_set_getD (v : ℕ → Point) (d : Point)
    (step : List Point → ℕ → List Point)
    (hstep : ∀ acc i, step acc i = acc.set i (v i)) :
    ∀ (n : ℕ) (l : List Point) (j : ℕ),
      (((List.range n).foldl step l).getD j d)
        = if j < n ∧ j < l.length then v j else l.getD j d := by
  intro n
  induction n with
  | zero => intro l j; simp
  | succ n ih =>
    intro l j
    rw [List.range_succ, List.foldl_append, List.foldl_cons, List.foldl_nil,
      hstep]
    have hlen : ((List.range n).foldl step l).length = l.length :=
      foldl_length_invariant (List.range n) step
        (fun cl i => by rw [hstep, List.length_set]) l
    by_cases hj : j = n
    · subst hj
      by_cases hlt : j < l.length
      · rw [getD_set_eq _ _ _ _ (by rw [hlen]; exact hlt)]
        simp [hlt]
      · rw [List.getD_eq_default _ _ (by rw [List.length_set, hlen]; omega),
          if_neg (fun hc => hlt hc.2),
          List.getD_eq_default _ _ (by omega)]
    · rw [getD_set_ne _ _ _ _ _ (Ne.symm hj), ih l j]
      rcases Nat.lt_or_ge j n with h | h
      · by_cases hlt2 : j < l.length
        · rw [if_pos ⟨h, hlt2⟩, if_pos ⟨by omega, hlt2⟩]
        · rw [if_neg (fun hc => hlt2 hc.2), if_neg (fun hc => hlt2 hc.2)]
      · rw [if_neg (by omega), if_neg (by omega)]

/-! ### Lengths through one iteration (assignment and update) -/

lemma assign_components (KM : Clustering) :
    (KM.assign).KMeans = KM.KMeans ∧ (KM.assign).points = KM.points
      ∧ (KM.assign).k = KM.k ∧ (KM.assign).maxDist = KM.maxDist
      ∧ (KM.assign).distanceMetric = KM.distanceMetric
      ∧ (KM.assign).Clusters.length = KM.k := by
  refine ⟨rfl, rfl, rfl, rfl, rfl, ?_⟩
  have h := foldl_length_invariant (β := PointSet)
    (List.range KM.points.Points.length)
    (fun cl pointIndex =>
      cl.set (ClosestMeanIndex KM pointIndex)
        ⟨(cl.getD (ClosestMeanIndex KM pointIndex) ⟨[]⟩).Points
          ++ [KM.points.Points.getD pointIndex zeroPoint]⟩)
    (fun cl x => List.length_set _ _ _)
    (List.replicate KM.k (⟨[]⟩ : PointSet))
  calc (KM.assign).Clusters.length
      = (List.replicate KM.k (⟨[]⟩ : PointSet)).length := h
    _ = KM.k := List.length_replicate KM.k (⟨[]⟩ : PointSet)

lemma update_components (KM : Clustering) (rnd : ℕ → ℕ → ℕ → ℚ) :
    (KM.update rnd).1.points = KM.points ∧ (KM.update rnd).1.k = KM.k
      ∧ (KM.update rnd).1.Clusters = KM.Clusters
      ∧ (KM.update rnd).1.maxDist = KM.maxDist
      ∧ (KM.update rnd).1.distanceMetric = KM.distanceMetric
      ∧ (KM.update rnd).1.KMeans.Points.length = KM.KMeans.Points.length := by
  refine ⟨rfl, rfl, rfl, rfl, rfl, ?_⟩
  exact foldl_length_invariant (List.range KM.Clusters.length) _
    (fun cl x => List.length_set _ _ _) KM.KMeans.Points

lemma lowerAndUpperBounds_length (points : PointSet)
    (hne : points.Points ≠ []) :
    points.LowerAndUpperBounds.length
      = (points.Points.getD 0 zeroPoint).Dimension := by
  have hpos : 0 < points.Points.length := List.length_pos.mpr hne
  rw [PointSet.LowerAndUpperBounds, if_neg (by omega)]
  simp

lemma createRandomStart_length (rnd : ℕ → ℕ → ℚ) (points : PointSet) (k : ℕ)
    (hne : points.Points ≠ [])
    (hdim : 0 < (points.Points.getD 0 zeroPoint).Dimension) :
    (createRandomStart rnd points k).Points.length = k := by
  have hb := lowerAndUpperBounds_length points hne
  rw [createRandomStart, if_neg (by omega)]
  simp

lemma iterate_lengths (KM : Clustering) (rnd : ℕ → ℕ → ℕ → ℚ) (accuracy : ℚ)
    (hK : KM.KMeans.Points.length = KM.k) :
    ((KM.iterate rnd accuracy).1).KMeans.Points.length = KM.k
      ∧ ((KM.iterate rnd accuracy).1).Clusters.length = KM.k
      ∧ ((KM.iterate rnd accuracy).1).k = KM.k
      ∧ ((KM.iterate rnd accuracy).1).points = KM.points
      ∧ ((KM.iterate rnd accuracy).1).maxDist = KM.maxDist
      ∧ ((KM.iterate rnd accuracy).1).distanceMetric = KM.distanceMetric := by
  obtain ⟨ha1, ha2, ha3, ha4, ha5, ha6⟩ := assign_components KM
  obtain ⟨hu1, hu2, hu3, hu4, hu5, hu6⟩ := update_components KM.assign rnd
  have hit : (KM.iterate rnd accuracy).1 = (KM.assign.update rnd).1 := rfl
  refine ⟨?_, ?_, ?_, ?_, ?_, ?_⟩
  · rw [hit, hu6, ha1, hK]
  · rw [hit, hu3]; rw [ha6]
  · rw [hit, hu2, ha3]
  · rw [hit, hu1, ha2]
  · rw [hit, hu4, ha4]
  · rw [hit, hu5, ha5]

/-- C4: starting from `CreateKMeansProblem` with parameter `k` over a
non-empty source of positive dimension, after any number of iterations the
clustering still has exactly `k` clusters and exactly `k` centroids, even
across reseeding of emptied clusters. -/
theorem cluster_count_invariant (rnd0 : ℕ → ℕ → ℚ) (points : PointSet)
    (k : ℕ) (metric : Point → Point → ℚ) (R : ℕ → ℕ → ℕ → ℕ → ℚ)
    (accuracy : ℚ) (hne : points.Points ≠ [])
    (hdim : 0 < (points.Points.getD 0 zeroPoint).Dimension) :
    ∀ n,
      (stateAt R accuracy (CreateKMeansProblem rnd0 points k metric) n).Clusters.length = k
        ∧ (stateAt R accuracy (CreateKMeansProblem rnd0 points k metric) n).KMeans.Points.length = k := by
  have hkfield : ∀ n,
      (stateAt R accuracy (CreateKMeansProblem rnd0 points k metric) n).k = k
        ∧ (stateAt R accuracy (CreateKMeansProblem rnd0 points k metric) n).KMeans.Points.length = k
        ∧ (stateAt R accuracy (CreateKMeansProblem rnd0 points k metric) n).Clusters.length = k := by
    intro n
    induction n with
    | zero =>
      refine ⟨rfl, ?_, ?_⟩
      · exact createRandomStart_length rnd0 points k hne hdim
      · exact List.length_replicate k (⟨[]⟩ : PointSet)
    | succ n ih =>
      obtain ⟨ihk, ihK, ihC⟩ := ih
      have hlen := iterate_lengths _ (R n) accuracy (by rw [ihK, ihk])
      rw [stateAt]
      refine ⟨by rw [hlen.2.2.1, ihk], by rw [hlen.1, ihk], by rw [hlen.2.1, ihk]⟩
  intro n
  exact ⟨(hkfield n).2.2, (hkfield n).2.1⟩

/-- C8: the mean of the empty point set is the empty-coordinate zero point
rather than a failure, and the update step detects exactly the
empty-coordinate case, replacing such a centroid by a freshly drawn random
point of the bounding box while keeping the computed mean otherwise; an
empty cluster always falls in the replaced case. -/
theorem mean_empty_reseed (KM : Clustering) (rnd : ℕ → ℕ → ℕ → ℚ) (j : ℕ)
    (hj : j < KM.Clusters.length) (hjK : j < KM.KMeans.Points.length) :
    PointSet.Mean ⟨[]⟩ = (⟨[], 0⟩ : Point)
      ∧ ((KM.update rnd).1.KMeans.Points.getD j zeroPoint
          = if ((KM.Clusters.getD j ⟨[]⟩).Mean).Coordinates.length = 0
            then (createRandomStart (rnd j) KM.points 1).Points.getD 0 zeroPoint
            else (KM.Clusters.getD j ⟨[]⟩).Mean)
      ∧ ((KM.Clusters.getD j ⟨[]⟩).Points = []
          → ((KM.Clusters.getD j ⟨[]⟩).Mean).Coordinates.length = 0) := by
  refine ⟨rfl, ?_, ?_⟩
  · have h := foldl_range_set_getD
      (fun clusterID =>
        if ((KM.Clusters.getD clusterID ⟨[]⟩).Mean).Coordinates.length = 0
        then (createRandomStart (rnd clusterID) KM.points 1).Points.getD 0 zeroPoint
        else (KM.Clusters.getD clusterID ⟨[]⟩).Mean)
      zeroPoint
      (fun kms clusterID =>
        kms.set clusterID
          (if ((KM.Clusters.getD clusterID ⟨[]⟩).Mean).Coordinates.length = 0
           then (createRandomStart (rnd clusterID) KM.points 1).Points.getD 0 zeroPoint
           else (KM.Clusters.getD clusterID ⟨[]⟩).Mean))
      (fun acc i => rfl) KM.Clusters.length KM.KMeans.Points j
    calc (KM.update rnd).1.KMeans.Points.getD j zeroPoint
        = if j < KM.Clusters.length ∧ j < KM.KMeans.Points.length
          then (if ((KM.Clusters.getD j ⟨[]⟩).Mean).Coordinates.length = 0
                then (createRandomStart (rnd j) KM.points 1).Points.getD 0 zeroPoint
                else (KM.Clusters.getD j ⟨[]⟩).Mean)
          else KM.KMeans.Points.getD j zeroPoint := h
      _ = _ := if_pos ⟨hj, hjK⟩
  · intro hempty
    rw [PointSet.Mean]
    rw [if_pos (by rw [hempty]; rfl)]
    rfl

/-! ### Termination and stopping condition of `Cluster` -/

lemma clusterAux_spec (R : ℕ → ℕ → ℕ → ℕ → ℚ) (accuracy : ℚ) (ct : ℤ)
    (KM0 : Clustering) (hct : 1 ≤ ct) :
    ∀ (fuel count : ℕ) (cd : ℤ),
      iterationLimit - count ≤ fuel → count ≤ iterationLimit →
      cd = (streak R accuracy KM0 count : ℤ) → cd ≤ ct →
      (∀ t < count, (streak R accuracy KM0 t : ℤ) < ct) →
      (clusterAux R accuracy ct (stateAt R accuracy KM0 count) cd count).2 ≤ iterationLimit
        ∧ (clusterAux R accuracy ct (stateAt R accuracy KM0 count) cd count).1
            = stateAt R accuracy KM0
              (clusterAux R accuracy ct (stateAt R accuracy KM0 count) cd count).2
        ∧ (∀ t < (clusterAux R accuracy ct (stateAt R accuracy KM0 count) cd count).2,
            (streak R accuracy KM0 t : ℤ) < ct)
        ∧ ((clusterAux R accuracy ct (stateAt R accuracy KM0 count) cd count).2 < iterationLimit
            → (streak R accuracy KM0
                (clusterAux R accuracy ct (stateAt R accuracy KM0 count) cd count).2 : ℤ) = ct)
        ∧ count ≤ (clusterAux R accuracy ct (stateAt R accuracy KM0 count) cd count).2 := by
  intro fuel
  induction fuel with
  | zero =>
    intro count cd hfuel hcap hcd hle hprev
    have hcount : iterationLimit ≤ count := by omega
    rw [clusterAux, if_neg (by omega)]
    dsimp only
    exact ⟨hcap, rfl, hprev, fun hlt => absurd hlt (by omega), le_refl _⟩
  | succ fuel ih =>
    intro count cd hfuel hcap hcd hle hprev
    rw [clusterAux]
    by_cases hcond : cd < ct ∧ count < iterationLimit
    · rw [if_pos hcond]
      dsimp only
      have hstate : ((stateAt R accuracy KM0 count).iterate (R count) accuracy).1
          = stateAt R accuracy KM0 (count + 1) := rfl
      have hmet : ((stateAt R accuracy KM0 count).iterate (R count) accuracy).2
          = metAt R accuracy KM0 count := rfl
      rw [hstate, hmet]
      have hcd' : (if metAt R accuracy KM0 count then cd + 1 else 0)
          = (streak R accuracy KM0 (count + 1) : ℤ) := by
        rw [streak]
        by_cases hm : metAt R accuracy KM0 count
        · rw [if_pos hm, if_pos hm, hcd]
          push_cast
          ring
        · rw [if_neg hm, if_neg hm]
          rfl
      rw [hcd']
      obtain ⟨h1, h2, h3, h4, h5⟩ := ih (count + 1) _ (by omega) (by omega) rfl
        (by
          rw [← hcd']
          by_cases hm : metAt R accuracy KM0 count
          · rw [if_pos hm]; omega
          · rw [if_neg hm]; omega)
        (by
          intro t ht
          rcases Nat.lt_succ_iff_lt_or_eq.mp ht with ht' | ht'
          · exact hprev t ht'
          · subst ht'; omega)
      exact ⟨h1, h2, h3, h4, by omega⟩
    · rw [if_neg hcond]
      dsimp only
      push_neg at hcond
      refine ⟨hcap, rfl, hprev, ?_, le_refl _⟩
      intro hlt
      have hge : ¬ cd < ct := fun hc => absurd (hcond hc) (by omega)
      omega

/-- C3: for any accuracy and any `consecutiveTimes ≥ 1`, `Cluster` performs
at most `iterationLimit = 100` iterations; it stops before the cap exactly
when the accuracy criterion of `iterate` has just held for
`consecutiveTimes` consecutive iterations (the consecutive counter, here
the `streak` of the iteration trace, resets to zero on every failing
iteration), no earlier iteration having completed such a run; and the
returned state is the iterated state. -/
theorem cluster_termination_characterisation (R : ℕ → ℕ → ℕ → ℕ → ℚ)
    (accuracy : ℚ) (ct : ℤ) (KM : Clustering) (hct : 1 ≤ ct) :
    (KM.Cluster R accuracy ct).2 ≤ iterationLimit
      ∧ ((KM.Cluster R accuracy ct).2 < iterationLimit
          → (streak R accuracy KM (KM.Cluster R accuracy ct).2 : ℤ) = ct)
      ∧ (∀ t < (KM.Cluster R accuracy ct).2,
          (streak R accuracy KM t : ℤ) < ct)
      ∧ (KM.Cluster R accuracy ct).1
          = stateAt R accuracy KM (KM.Cluster R accuracy ct).2 := by
  obtain ⟨h1, h2, h3, h4, -⟩ := clusterAux_spec R accuracy ct KM hct
    iterationLimit 0 0 (by omega) (by omega) rfl (by omega) (by omega)
  exact ⟨h1, h4, h3, h2⟩

/-! ### The k-d tree (`kd_tree.go`)

`Node` holds a pivot point and optional children (`Left = nil` marks a
leaf, exactly as `isLeafNode` tests).  Parent pointers are represented by
the explicit path of ancestors recorded while descending, each with the
side that was taken (Go compares child pointers to recover that side).
Recursions are by a fuel counter so that every definition is structural
and evaluates inside the kernel; the stated fuel values are always
sufficient, so the fuel-exhausted branches are never taken on the inputs
of the theorems below. -/

inductive KDNode where
  | mk (PointValue : Point) (Left : Option KDNode) (Right : Option KDNode)

/-- The pivot point stored at a node. -/
def KDNode.pt : KDNode → Point
  | .mk p _ _ => p

/-- The left child (`Node.Left`). -/
def KDNode.left : KDNode → Option KDNode
  | .mk _ l _ => l

/-- The right child (`Node.Right`). -/
def KDNode.right : KDNode → Option KDNode
  | .mk _ _ r => r

/-- Number of nodes of the tree, used as fuel for the search. -/
def KDNode.size : KDNode → ℕ
  | .mk _ none none => 1
  | .mk _ none (some r) => 1 + r.size
  | .mk _ (some l) none => 1 + l.size
  | .mk _ (some l) (some r) => 1 + l.size + r.size

/-- `KDTree`: root node and the shared mutable `BestDist` pruning field
(the unused `Lookup` map is omitted). -/
structure KDTree where
  Root : KDNode
  BestDist : ℚ

/-- The descent loop of `findNearestNeighborTo`: starting from the root,
stop at a leaf (`Left = nil`), otherwise move to the side of the pivot the
query falls on (`goDownOneLevel`: left when `q[axis] < pivot[axis]`, else
right if present, else left), recording each ancestor and the side taken,
and incrementing the level. -/
def descend (q : Point) (nmbAxis : ℕ) :
    KDNode → ℕ → List (KDNode × Bool) →
      List (KDNode × Bool) × KDNode × ℕ
  | .mk pt none r, level, path => (path, .mk pt none r, level)
  | .mk pt (some l) none, level, path =>
    descend q nmbAxis l (level + 1) ((KDNode.mk pt (some l) none, true) :: path)
  | .mk pt (some l) (some r), level, path =>
    if coordD q (level % nmbAxis) < coordD pt (level % nmbAxis) then
      descend q nmbAxis l (level + 1)
        ((KDNode.mk pt (some l) (some r), true) :: path)
    else
      descend q nmbAxis r (level + 1)
        ((KDNode.mk pt (some l) (some r), false) :: path)

/-- The upward loop of `findNearestNeighborTo`, walking the recorded
ancestor path: decrement the level (stopping if it would go negative),
possibly search the sibling subtree as a freshly rooted tree whose
`BestDist` starts at the zero value `0.0` (the recursive search is the
function argument `search`), then compare the ancestor's own pivot. -/
def backtrackF (metric : Point → Point → ℚ) (q : Point) (nmbAxis : ℕ)
    (search : KDNode → ℚ → Point × ℚ) :
    List (KDNode × Bool) → ℤ → Point → ℚ → ℚ → Point × ℚ
  | [], _, best, bestD, _ => (best, bestD)
  | (anc, wentLeft) :: rest, level, best, bestD, kdBest =>
    let level' := level - 1
    if level' < 0 then (best, bestD)
    else
      let ax := level'.toNat % nmbAxis
      let hyperplanedist := (coordD q ax - coordD anc.pt ax) ^ 2
      let explored :=
        if kdBest > hyperplanedist then
          match (if wentLeft then anc.right else anc.left) with
          | some sib =>
            let other := search sib 0
            if other.2 < bestD then (other.1, other.2, other.2)
            else (best, bestD, kdBest)
          | none => (best, bestD, kdBest)
        else (best, bestD, kdBest)
      let obd := metric anc.pt q
      if obd < explored.2.1 then
        backtrackF metric q nmbAxis search rest level' anc.pt obd obd
      else
        backtrackF metric q nmbAxis search rest level' explored.1
          explored.2.1 explored.2.2

/-- `findNearestNeighborTo`, by fuel: descend to a leaf, seed the best with
the leaf's point, update the shared `BestDist` (`-1` marks unset), then
backtrack; sibling subtrees are searched with one unit of fuel less (the
nesting depth is bounded by the tree size, so `size` fuel suffices). -/
def findNNFuel (metric : Point → Point → ℚ) (q : Point) (nmbAxis : ℕ) :
    ℕ → KDNode → ℚ → Point × ℚ
  | 0, root, _ =>
    let des := descend q nmbAxis root 0 []
    (des.2.1.pt, metric des.2.1.pt q)
  | fuel + 1, root, kdBestInit =>
    let des := descend q nmbAxis root 0 []
    let currentBestDist := metric des.2.1.pt q
    let kdBest :=
      if kdBestInit = -1 ∨ currentBestDist < kdBestInit then currentBestDist
      else kdBestInit
    backtrackF metric q nmbAxis (findNNFuel metric q nmbAxis fuel) des.1
      (des.2.2 : ℤ) des.2.1.pt currentBestDist kdBest

/-- `(KDTree).findNearestNeighborTo`: search with the tree's `BestDist`
field as initial pruning bound. -/
def KDTree.findNearestNeighborTo (kd : KDTree) (point : Point)
    (distanceMetricFunction : Point → Point → ℚ) (nmbAxis : ℕ) :
    Point × ℚ :=
  findNNFuel distanceMetricFunction point nmbAxis kd.Root.size kd.Root
    kd.BestDist

/-- `generateKDNodeFromPoints`, by fuel (`|points|` always suffices):
split by the median, recurse on the left half when non-empty, and on the
right half when additionally non-empty. -/
def generateKDNodeFuel : ℕ → PointSet → ℕ → ℕ → KDNode
  | 0, _, _, _ => .mk zeroPoint none none
  | fuel + 1, points, axis, nmbAxis =>
    let branched := points.BranchByMedian axis
    if branched.1.Points ≠ [] then
      let leftNode := generateKDNodeFuel fuel branched.1 ((axis + 1) % nmbAxis) nmbAxis
      if branched.2.1.Points ≠ [] then
        .mk branched.2.2 (some leftNode)
          (some (generateKDNodeFuel fuel branched.2.1 ((axis + 1) % nmbAxis) nmbAxis))
      else .mk branched.2.2 (some leftNode) none
    else .mk branched.2.2 none none

/-- `generateKDTreeFromPoints`: build the root on axis 0 and initialise
`BestDist` to `-1`. -/
def generateKDTreeFromPoints (points : PointSet) (nmbAxis : ℕ) : KDTree :=
  ⟨generateKDNodeFuel points.Points.length points 0 nmbAxis, -1⟩

/-- `findNearestNeighbor`: the exhaustive linear scan over a list of
neighbors (`firstLoop || distance < bestDistance`). -/
def findNearestNeighbor (neighbors : List Point) (point : Point)
    (distanceMetricFunction : Point → Point → ℚ) : Point :=
  (neighbors.foldl
    (fun st neighbor =>
      let distance := distanceMetricFunction neighbor point
      if st.2.2 ∨ distance < st.2.1 then (neighbor, distance, false) else st)
    ((zeroPoint, 0, true) : Point × ℚ × Bool)).1

/-- C9: on a tree whose root has no children, the search returns the root's
point and its distance to the query immediately: the descent stops at the
root and the upward loop body is never entered, whatever the stored
`BestDist`, the metric and the axis count. -/
theorem kdtree_single_node_immediate (pt : Point) (bd : ℚ) (q : Point)
    (metric : Point → Point → ℚ) (nmbAxis : ℕ) :
    KDTree.findNearestNeighborTo ⟨.mk pt none none, bd⟩ q metric nmbAxis
      = (pt, metric pt q) := by
  rfl

unseal Rat.mul Rat.add Rat.sub Rat.inv in
/-- C1, counterexample: on the 6-point 2-D set
`{(0,1),(8,8),(3,6),(7,2),(5,7),(4,0)}` (all coordinates distinct on both
axes) and the query `(5,0)`, the k-d tree search returns `(7,2)` at squared
distance `8`, while the exhaustive linear scan with the same metric returns
`(4,0)` at squared distance `1` — so the search does not return the same
point as the scan even on a set of fewer than 50 points: the detached
sibling subtrees are searched with the pruning field restarted at the zero
value and their own branches are therefore never explored. -/
theorem kdtree_search_differs_from_linear_scan :
    (KDTree.findNearestNeighborTo
        (generateKDTreeFromPoints
          ⟨[⟨[0, 1], 0⟩, ⟨[8, 8], 1⟩, ⟨[3, 6], 2⟩,
            ⟨[7, 2], 3⟩, ⟨[5, 7], 4⟩, ⟨[4, 0], 5⟩]⟩ 2)
        ⟨[5, 0], 6⟩ EuclidianDistance 2)
      = (⟨[7, 2], 3⟩, 8)
    ∧ findNearestNeighbor
        [⟨[0, 1], 0⟩, ⟨[8, 8], 1⟩, ⟨[3, 6], 2⟩,
          ⟨[7, 2], 3⟩, ⟨[5, 7], 4⟩, ⟨[4, 0], 5⟩]
        ⟨[5, 0], 6⟩ EuclidianDistance = ⟨[4, 0], 5⟩
    ∧ EuclidianDistance ⟨[4, 0], 5⟩ ⟨[5, 0], 6⟩ = 1 := by
  decide

unseal Rat.mul Rat.add Rat.sub Rat.inv in
/-- C2, counterexample: a complete, realisable run of the engine with the
`RedMeanDistance` metric (the metric the repository's palette extraction
passes to `CreateKMeansProblem`) whose total intra-cluster error increases
by more than `154` between two consecutive completed iterations: three
color points, `k = 2`, both initial centroids drawn at the lower bound
corner; in iteration 1 cluster 1 is empty and is reseeded onto the third
point, which it captures in iteration 2, after which the plain-mean update
is suboptimal for the red-dependent weights of `RedMeanDistance`. -/
theorem totalDist_increases_under_redmean :
    ((CreateKMeansProblem (fun _ _ => 0)
        ⟨[⟨[0, 0, 0], 0⟩, ⟨[255, 0, 255], 1⟩, ⟨[140, 12, 229/2], 2⟩]⟩ 2
        RedMeanDistance).iterate
      (fun _ _ j => [28/51, 1, 229/510].getD j 0) 1).1.TotalDist
        = 997057129/6144
    ∧ (((CreateKMeansProblem (fun _ _ => 0)
        ⟨[⟨[0, 0, 0], 0⟩, ⟨[255, 0, 255], 1⟩, ⟨[140, 12, 229/2], 2⟩]⟩ 2
        RedMeanDistance).iterate
      (fun _ _ j => [28/51, 1, 229/510].getD j 0) 1).1.iterate
      (fun _ _ j => [28/51, 1, 229/510].getD j 0) 1).1.TotalDist
        = 83166975/512
    ∧ ((CreateKMeansProblem (fun _ _ => 0)
        ⟨[⟨[0, 0, 0], 0⟩, ⟨[255, 0, 255], 1⟩, ⟨[140, 12, 229/2], 2⟩]⟩ 2
        RedMeanDistance).iterate
      (fun _ _ j => [28/51, 1, 229/510].getD j 0) 1).1.TotalDist + 154
      < (((CreateKMeansProblem (fun _ _ => 0)
        ⟨[⟨[0, 0, 0], 0⟩, ⟨[255, 0, 255], 1⟩, ⟨[140, 12, 229/2], 2⟩]⟩ 2
        RedMeanDistance).iterate
      (fun _ _ j => [28/51, 1, 229/510].getD j 0) 1).1.iterate
      (fun _ _ j => [28/51, 1, 229/510].getD j 0) 1).1.TotalDist := by
  decide

/-! ### Soundness of the k-d tree search -/

/-- All points stored in a tree. -/
def KDNode.points : KDNode → List Point
  | .mk p none none => [p]
  | .mk p none (some r) => p :: r.points
  | .mk p (some l) none => p :: l.points
  | .mk p (some l) (some r) => p :: (l.points ++ r.points)

lemma KDNode.pt_mem_points (n : KDNode) : n.pt ∈ n.points := by
  rcases n with ⟨p, _ | l, _ | r⟩ <;> simp [KDNode.points, KDNode.pt]

lemma KDNode.left_points_subset (n : KDNode) (l : KDNode)
    (h : n.left = some l) : l.points ⊆ n.points := by
  rcases n with ⟨p, _ | l', _ | r⟩ <;>
    simp [KDNode.left] at h <;>
    subst h <;>
    intro x hx <;>
    simp [KDNode.points] <;>
    tauto

lemma KDNode.right_points_subset (n : KDNode) (r : KDNode)
    (h : n.right = some r) : r.points ⊆ n.points := by
  rcases n with ⟨p, _ | l', _ | r'⟩ <;>
    simp [KDNode.right] at h <;>
    subst h <;>
    intro x hx <;>
    simp [KDNode.points] <;>
    tauto

lemma descend_subsets (q : Point) (nmbAxis : ℕ) (S : List Point) :
    ∀ (n : KDNode) (level : ℕ) (path : List (KDNode × Bool)),
      n.points ⊆ S → (∀ pr ∈ path, (pr.1 : KDNode).points ⊆ S) →
      (descend q nmbAxis n level path).2.1.points ⊆ S
        ∧ ∀ pr ∈ (descend q nmbAxis n level path).1, pr.1.points ⊆ S
  | .mk p none r, level, path => fun hn hpath => ⟨hn, hpath⟩
  | .mk p (some l) none, level, path => fun hn hpath =>
      descend_subsets q nmbAxis S l (level + 1)
        ((KDNode.mk p (some l) none, true) :: path)
        (fun x hx => hn (KDNode.left_points_subset (KDNode.mk p (some l) none) l rfl hx))
        (fun pr hpr => by
          rcases List.mem_cons.mp hpr with h | h
          · rw [h]; exact hn
          · exact hpath pr h)
  | .mk p (some l) (some r), level, path => fun hn hpath => by
      rw [descend]
      by_cases hc : coordD q (level % nmbAxis) < coordD p (level % nmbAxis)
      · rw [if_pos hc]
        exact descend_subsets q nmbAxis S l (level + 1)
          ((KDNode.mk p (some l) (some r), true) :: path)
          (fun x hx => hn (KDNode.left_points_subset (KDNode.mk p (some l) (some r)) l rfl hx))
          (fun pr hpr => by
            rcases List.mem_cons.mp hpr with h | h
            · rw [h]; exact hn
            · exact hpath pr h)
      · rw [if_neg hc]
        exact descend_subsets q nmbAxis S r (level + 1)
          ((KDNode.mk p (some l) (some r), false) :: path)
          (fun x hx => hn (KDNode.right_points_subset (KDNode.mk p (some l) (some r)) r rfl hx))
          (fun pr hpr => by
            rcases List.mem_cons.mp hpr with h | h
            · rw [h]; exact hn
            · exact hpath pr h)

lemma backtrackF_sound (metric : Point → Point → ℚ) (q : Point)
    (nmbAxis : ℕ) (S : List Point) (search : KDNode → ℚ → Point × ℚ)
    (hsearch : ∀ t kdb, t.points ⊆ S →
      (search t kdb).1 ∈ S ∧ (search t kdb).2 = metric (search t kdb).1 q) :
    ∀ (path : List (KDNode × Bool)) (level : ℤ) (best : Point)
      (bestD kdBest : ℚ),
      best ∈ S → bestD = metric best q →
      (∀ pr ∈ path, (pr.1 : KDNode).points ⊆ S) →
      (backtrackF metric q nmbAxis search path level best bestD kdBest).1 ∈ S
        ∧ (backtrackF metric q nmbAxis search path level best bestD kdBest).2
            = metric
              (backtrackF metric q nmbAxis search path level best bestD kdBest).1
              q := by
  intro path
  induction path with
  | nil =>
    intro level best bestD kdBest hbest hdist hpath
    exact ⟨hbest, hdist⟩
  | cons pr rest ih =>
    intro level best bestD kdBest hbest hdist hpath
    obtain ⟨anc, wentLeft⟩ := pr
    have hanc : anc.points ⊆ S := hpath (anc, wentLeft) (List.mem_cons_self _ _)
    have hancpt : anc.pt ∈ S := hanc (KDNode.pt_mem_points anc)
    have hrest : ∀ pr ∈ rest, (pr.1 : KDNode).points ⊆ S :=
      fun pr hpr => hpath pr (List.mem_cons_of_mem _ hpr)
    rw [backtrackF]
    dsimp only
    by_cases hneg : level - 1 < 0
    · rw [if_pos hneg]
      exact ⟨hbest, hdist⟩
    · rw [if_neg hneg]
      have hexpl : ∀ E : Point × ℚ × ℚ, E.1 ∈ S → E.2.1 = metric E.1 q →
          ((if metric anc.pt q < E.2.1 then
              backtrackF metric q nmbAxis search rest (level - 1) anc.pt
                (metric anc.pt q) (metric anc.pt q)
            else
              backtrackF metric q nmbAxis search rest (level - 1) E.1
                E.2.1 E.2.2).1 ∈ S
            ∧ (if metric anc.pt q < E.2.1 then
                backtrackF metric q nmbAxis search rest (level - 1) anc.pt
                  (metric anc.pt q) (metric anc.pt q)
              else
                backtrackF metric q nmbAxis search rest (level - 1) E.1
                  E.2.1 E.2.2).2
              = metric
                (if metric anc.pt q < E.2.1 then
                  backtrackF metric q nmbAxis search rest (level - 1) anc.pt
                    (metric anc.pt q) (metric anc.pt q)
                else
                  backtrackF metric q nmbAxis search rest (level - 1) E.1
                    E.2.1 E.2.2).1 q) := by
        intro E hE1 hE2
        by_cases hcloser : metric anc.pt q < E.2.1
        · rw [if_pos hcloser]
          exact ih (level - 1) anc.pt (metric anc.pt q) (metric anc.pt q)
            hancpt rfl hrest
        · rw [if_neg hcloser]
          exact ih (level - 1) E.1 E.2.1 E.2.2 hE1 hE2 hrest
      apply hexpl
      all_goals {
        by_cases hprune : kdBest > (coordD q ((level - 1).toNat % nmbAxis)
            - coordD anc.pt ((level - 1).toNat % nmbAxis)) ^ 2
        · rw [if_pos hprune]
          rcases hsib : (if wentLeft then anc.right else anc.left) with _ | sib
          · dsimp only
            first
              | exact hbest
              | exact hdist
          · have hsibsub : sib.points ⊆ S := by
              by_cases hw : wentLeft
              · rw [if_pos hw] at hsib
                exact fun x hx => hanc (KDNode.right_points_subset anc sib hsib hx)
              · rw [if_neg hw] at hsib
                exact fun x hx => hanc (KDNode.left_points_subset anc sib hsib hx)
            obtain ⟨hs1, hs2⟩ := hsearch sib 0 hsibsub
            dsimp only
            by_cases hbetter : (search sib 0).2 < bestD
            · rw [if_pos hbetter]
              first
                | exact hs1
                | exact hs2
            · rw [if_neg hbetter]
              first
                | exact hbest
                | exact hdist
        · rw [if_neg hprune]
          first
            | exact hbest
            | exact hdist
      }

lemma findNNFuel_sound (metric : Point → Point → ℚ) (q : Point)
    (nmbAxis : ℕ) (S : List Point) :
    ∀ (fuel : ℕ) (root : KDNode) (kdb : ℚ), root.points ⊆ S →
      (findNNFuel metric q nmbAxis fuel root kdb).1 ∈ S
        ∧ (findNNFuel metric q nmbAxis fuel root kdb).2
            = metric (findNNFuel metric q nmbAxis fuel root kdb).1 q := by
  intro fuel
  induction fuel with
  | zero =>
    intro root kdb hroot
    have hdes := descend_subsets q nmbAxis S root 0 [] hroot (by simp)
    exact ⟨hdes.1 (KDNode.pt_mem_points _), rfl⟩
  | succ fuel ih =>
    intro root kdb hroot
    have hdes := descend_subsets q nmbAxis S root 0 [] hroot (by simp)
    exact backtrackF_sound metric q nmbAxis S
      (findNNFuel metric q nmbAxis fuel)
      (fun t kdb' hsub => ih t kdb' hsub)
      (descend q nmbAxis root 0 []).1
      ((descend q nmbAxis root 0 []).2.2 : ℤ)
      (descend q nmbAxis root 0 []).2.1.pt
      (metric (descend q nmbAxis root 0 []).2.1.pt q) _
      (hdes.1 (KDNode.pt_mem_points _)) rfl hdes.2

lemma generateKDNodeFuel_points_subset :
    ∀ (fuel : ℕ) (points : PointSet) (axis nmbAxis : ℕ),
      0 < points.Points.length → points.Points.length ≤ fuel →
      (generateKDNodeFuel fuel points axis nmbAxis).points ⊆ points.Points := by
  intro fuel
  induction fuel with
  | zero =>
    intro points axis nmbAxis hpos hle
    omega
  | succ fuel ih =>
    intro points axis nmbAxis hpos hle
    have hperm := sortByAxis_perm points axis
    have hsortedlen := sortByAxis_length points axis
    have hdec := branchByMedian_decomp points axis
      (List.length_pos.mp hpos)
    have hsub_sorted : (points.SortByAxis axis).Points ⊆ points.Points :=
      hperm.subset
    have hleftlen : (points.BranchByMedian axis).1.Points.length
        = points.Points.length / 2 := by
      simp [PointSet.BranchByMedian, hsortedlen]
      omega
    have hrightlen : (points.BranchByMedian axis).2.1.Points.length
        = points.Points.length - (points.Points.length / 2 + 1) := by
      simp [PointSet.BranchByMedian, hsortedlen]
    have hpivot : (points.BranchByMedian axis).2.2 ∈ points.Points := by
      apply hsub_sorted
      rw [← hdec]
      exact List.mem_append_right _ (List.mem_cons_self _ _)
    have hleft_sub : (points.BranchByMedian axis).1.Points ⊆ points.Points := by
      intro x hx
      apply hsub_sorted
      rw [← hdec]
      exact List.mem_append_left _ hx
    have hright_sub : (points.BranchByMedian axis).2.1.Points ⊆ points.Points := by
      intro x hx
      apply hsub_sorted
      rw [← hdec]
      exact List.mem_append_right _ (List.mem_cons_of_mem _ hx)
    rw [generateKDNodeFuel]
    by_cases hL : (points.BranchByMedian axis).1.Points ≠ []
    · rw [if_pos hL]
      have hLpos : 0 < (points.BranchByMedian axis).1.Points.length :=
        List.length_pos.mpr hL
      have hLle : (points.BranchByMedian axis).1.Points.length ≤ fuel := by
        omega
      by_cases hR : (points.BranchByMedian axis).2.1.Points ≠ []
      · rw [if_pos hR]
        have hRpos : 0 < (points.BranchByMedian axis).2.1.Points.length :=
          List.length_pos.mpr hR
        have hRle : (points.BranchByMedian axis).2.1.Points.length ≤ fuel := by
          omega
        intro x hx
        rcases List.mem_cons.mp hx with h | h
        · subst h; exact hpivot
        · rcases List.mem_append.mp h with h' | h'
          · exact hleft_sub (ih _ _ nmbAxis hLpos hLle h')
          · exact hright_sub (ih _ _ nmbAxis hRpos hRle h')
      · rw [if_neg hR]
        intro x hx
        rcases List.mem_cons.mp hx with h | h
        · subst h; exact hpivot
        · exact hleft_sub (ih _ _ nmbAxis hLpos hLle h)
    · rw [if_neg hL]
      intro x hx
      rcases List.mem_cons.mp hx with h | h
      · subst h; exact hpivot
      · simp [KDNode.points] at hx
        rw [hx]
        exact hpivot

/-- C1, amended: the nearest-neighbor search on a tree built from a
non-empty point set always returns a point belonging to the set together
with exactly that point's distance to the query under the supplied metric
(best effort), but — per the counterexample — not necessarily the same
point as the exhaustive linear scan. -/
theorem kdtree_search_sound (ps : PointSet) (q : Point)
    (metric : Point → Point → ℚ) (nmbAxis : ℕ) (hne : ps.Points ≠ []) :
    ((generateKDTreeFromPoints ps nmbAxis).findNearestNeighborTo q metric nmbAxis).1
        ∈ ps.Points
      ∧ ((generateKDTreeFromPoints ps nmbAxis).findNearestNeighborTo q metric nmbAxis).2
          = metric
            ((generateKDTreeFromPoints ps nmbAxis).findNearestNeighborTo q metric nmbAxis).1
            q := by
  have hroot : (generateKDTreeFromPoints ps nmbAxis).Root.points ⊆ ps.Points :=
    generateKDNodeFuel_points_subset ps.Points.length ps 0 nmbAxis
      (List.length_pos.mpr hne) (le_refl _)
  exact findNNFuel_sound metric q nmbAxis ps.Points _ _ _ hroot

/-! ### Monotonicity of the total error under the squared-Euclidean metric -/

lemma sum_list_range (f : ℕ → ℚ) (n : ℕ) :
    ((List.range n).map f).sum = ∑ i in Finset.range n, f i := by
  induction n with
  | zero => rfl
  | succ n ih =>
    rw [List.range_succ, List.map_append, List.sum_append,
      Finset.sum_range_succ, ih]
    simp

lemma list_sum_swap (c : List Point) (dd : ℕ) (w : Point → ℕ → ℚ) :
    (c.map (fun p => ∑ i in Finset.range dd, w p i)).sum
      = ∑ i in Finset.range dd, (c.map (fun p => w p i)).sum := by
  induction c with
  | nil => simp
  | cons p c ih =>
    simp only [List.map_cons, List.sum_cons, ih]
    exact Finset.sum_add_distrib.symm

lemma sq_sum_expand (ys : List ℚ) (x : ℚ) :
    (ys.map (fun y => (x - y) ^ 2)).sum
      = ys.length * x ^ 2 - 2 * x * ys.sum
        + (ys.map (fun y => y ^ 2)).sum := by
  induction ys with
  | nil => simp
  | cons y ys ih =>
    simp only [List.map_cons, List.sum_cons, List.length_cons, ih]
    push_cast
    ring

lemma mean1d_min (ys : List ℚ) (x : ℚ) (h : ys ≠ []) :
    (ys.map (fun y => (ys.sum / ys.length - y) ^ 2)).sum
      ≤ (ys.map (fun y => (x - y) ^ 2)).sum := by
  have hn : 0 < (ys.length : ℚ) := by
    exact_mod_cast List.length_pos.mpr h
  rw [sq_sum_expand, sq_sum_expand]
  have key : (ys.length : ℚ) * (ys.sum / ys.length) ^ 2
      - 2 * (ys.sum / ys.length) * ys.sum
      = - (ys.sum ^ 2 / ys.length) := by
    field_simp
    ring
  have key2 : (ys.length : ℚ) * x ^ 2 - 2 * x * ys.sum
      + ys.sum ^ 2 / ys.length
      = (ys.length * x - ys.sum) ^ 2 / ys.length := by
    field_simp
    ring
  have hsq : 0 ≤ ((ys.length : ℚ) * x - ys.sum) ^ 2 / ys.length :=
    div_nonneg (sq_nonneg _) (le_of_lt hn)
  linarith [hsq, key, key2]

lemma addDiv_length (n : ℚ) :
    ∀ (acc cs : List ℚ), cs.length = acc.length →
      (addDiv n acc cs).length = acc.length := by
  intro acc
  induction acc with
  | nil =>
    intro cs hcs
    rw [List.length_eq_zero.mp hcs]
    rfl
  | cons a as ih =>
    intro cs hcs
    match cs with
    | c :: cs' =>
      simp only [addDiv, List.length_cons]
      rw [ih cs' (by simpa using hcs)]

lemma addDiv_getD (n : ℚ) :
    ∀ (acc cs : List ℚ), cs.length = acc.length → ∀ i,
      (addDiv n acc cs).getD i 0 = acc.getD i 0 + cs.getD i 0 / n := by
  intro acc
  induction acc with
  | nil =>
    intro cs hcs i
    rw [List.length_eq_zero.mp hcs]
    simp [addDiv]
  | cons a as ih =>
    intro cs hcs i
    match cs with
    | c :: cs' =>
      match i with
      | 0 => rfl
      | i + 1 =>
        simp only [addDiv, List.getD_cons_succ]
        exact ih cs' (by simpa using hcs) i

/-- Characterisation of `Mean` on a non-empty cluster of points of equal
dimension: the mean has that dimension and each coordinate is the
arithmetic average. -/
lemma mean_coords (c : List Point) (dd : ℕ) (hne : c ≠ [])
    (hdim : ∀ p ∈ c, p.Dimension = dd) :
    (PointSet.Mean ⟨c⟩).Coordinates.length = dd
      ∧ ∀ i, coordD (PointSet.Mean ⟨c⟩) i
          = (c.map (fun p => coordD p i)).sum / c.length := by
  have hlen0 : ¬ c.length = 0 := by
    have := List.length_pos.mpr hne
    omega
  have hfold : ∀ (l : List Point) (acc : List ℚ),
      (∀ p ∈ l, p.Dimension = dd) → acc.length = dd →
      (l.foldl (fun acc point => addDiv (c.length : ℚ) acc point.Coordinates) acc).length = dd
        ∧ ∀ i, (l.foldl (fun acc point => addDiv (c.length : ℚ) acc point.Coordinates) acc).getD i 0
            = acc.getD i 0 + (l.map (fun p => coordD p i)).sum / c.length := by
    intro l
    induction l with
    | nil =>
      intro acc hl hacc
      simp [hacc]
    | cons p l ih =>
      intro acc hl hacc
      have hp : p.Coordinates.length = acc.length := by
        rw [hacc]
        exact hl p (List.mem_cons_self _ _)
      have hstep_len : (addDiv (c.length : ℚ) acc p.Coordinates).length = dd := by
        rw [addDiv_length _ _ _ hp, hacc]
      obtain ⟨ihlen, ihget⟩ := ih (addDiv (c.length : ℚ) acc p.Coordinates)
        (fun p hp => hl p (List.mem_cons_of_mem _ hp)) hstep_len
      refine ⟨by rw [List.foldl_cons]; exact ihlen, fun i => ?_⟩
      rw [List.foldl_cons, ihget i, addDiv_getD _ _ _ hp i, List.map_cons,
        List.sum_cons, add_div]
      have hc : coordD p i = p.Coordinates.getD i 0 := rfl
      rw [hc]
      ring
  have hd0 : (PointSet.Mean ⟨c⟩).Coordinates
      = c.foldl (fun acc point => addDiv (c.length : ℚ) acc point.Coordinates)
          (List.replicate dd (0 : ℚ)) := by
    rw [PointSet.Mean]
    rw [if_neg hlen0]
    have hhead : ((⟨c⟩ : PointSet).Points.getD 0 zeroPoint).Dimension = dd := by
      rcases c with _ | ⟨p, c'⟩
      · exact absurd rfl hne
      · exact hdim p (List.mem_cons_self _ _)
    simp only [hhead]
  obtain ⟨hlen, hget⟩ := hfold c (List.replicate dd (0 : ℚ)) hdim
    (List.length_replicate _ _)
  constructor
  · rw [hd0]; exact hlen
  · intro i
    show (PointSet.Mean ⟨c⟩).Coordinates.getD i 0 = _
    rw [show (PointSet.Mean ⟨c⟩).Coordinates.getD i 0
        = (c.foldl (fun acc point => addDiv (c.length : ℚ) acc point.Coordinates)
            (List.replicate dd (0 : ℚ))).getD i 0 from by rw [hd0]]
    rw [hget i]
    have hz : (List.replicate dd (0 : ℚ)).getD i 0 = 0 := by
      rcases Nat.lt_or_ge i dd with h | h
      · rw [List.getD_eq_getElem _ _ (by simpa using h)]
        simp
      · exact List.getD_eq_default _ _ (by simpa using h)
    rw [hz, zero_add]

lemma euclid_as_finsum (m p : Point) :
    EuclidianDistance m p
      = ∑ i in Finset.range m.Coordinates.length,
          (coordD m i - coordD p i) ^ 2 := by
  rw [EuclidianDistance, sum_list_range]

lemma euclid_symm (m p : Point)
    (h : m.Coordinates.length = p.Coordinates.length) :
    EuclidianDistance m p = EuclidianDistance p m := by
  rw [euclid_as_finsum, euclid_as_finsum, h]
  exact Finset.sum_congr rfl (fun i _ => by ring)

/-- The mean of a non-empty cluster minimises the summed squared-Euclidean
distance to the cluster among all centroids of the same dimension. -/
lemma cluster_mean_min (c : List Point) (dd : ℕ) (x : Point) (hne : c ≠ [])
    (hdim : ∀ p ∈ c, p.Dimension = dd) (hx : x.Coordinates.length = dd) :
    (c.map (fun p => EuclidianDistance (PointSet.Mean ⟨c⟩) p)).sum
      ≤ (c.map (fun p => EuclidianDistance x p)).sum := by
  obtain ⟨hmlen, hmget⟩ := mean_coords c dd hne hdim
  have hrw1 : (c.map (fun p => EuclidianDistance (PointSet.Mean ⟨c⟩) p)).sum
      = ∑ i in Finset.range dd,
          (c.map (fun p => (coordD (PointSet.Mean ⟨c⟩) i - coordD p i) ^ 2)).sum := by
    rw [← list_sum_swap]
    congr 1
    refine List.map_congr_left (fun p hp => ?_)
    rw [euclid_as_finsum, hmlen]
  have hrw2 : (c.map (fun p => EuclidianDistance x p)).sum
      = ∑ i in Finset.range dd,
          (c.map (fun p => (coordD x i - coordD p i) ^ 2)).sum := by
    rw [← list_sum_swap]
    congr 1
    refine List.map_congr_left (fun p hp => ?_)
    rw [euclid_as_finsum, hx]
  rw [hrw1, hrw2]
  refine Finset.sum_le_sum (fun i _ => ?_)
  have hys : c.map (fun p => coordD p i) ≠ [] := by
    simpa using hne
  have hmin := mean1d_min (c.map (fun p => coordD p i)) (coordD x i) hys
  rw [List.map_map, List.map_map, List.length_map] at hmin
  simp only [Function.comp_def] at hmin
  have hmean : coordD (PointSet.Mean ⟨c⟩) i
      = (c.map (fun p => coordD p i)).sum / c.length := hmget i
  rw [← hmean] at hmin
  exact hmin

/-- Total distance of a cluster list under a per-cluster point weight. -/
def sumC (g : ℕ → Point → ℚ) (cl : List PointSet) : ℚ :=
  ∑ j in Finset.range cl.length, ((cl.getD j ⟨[]⟩).Points.map (g j)).sum

lemma getD_set_eq' {α : Type} (l : List α) (i : ℕ) (a d : α)
    (hi : i < l.length) : (l.set i a).getD i d = a := by
  rw [List.getD_eq_getElem?_getD, List.getElem?_set_self (by exact hi)]
  rfl

lemma getD_set_ne' {α : Type} (l : List α) (i j : ℕ) (a d : α) (h : i ≠ j) :
    (l.set i a).getD j d = l.getD j d := by
  rw [List.getD_eq_getElem?_getD, List.getElem?_set_ne h,
    ← List.getD_eq_getElem?_getD]

lemma sumC_set_append (g : ℕ → Point → ℚ) (cl : List PointSet) (j0 : ℕ)
    (x : Point) (hj0 : j0 < cl.length) :
    sumC g (cl.set j0 ⟨(cl.getD j0 ⟨[]⟩).Points ++ [x]⟩)
      = sumC g cl + g j0 x := by
  have hmem : j0 ∈ Finset.range cl.length := Finset.mem_range.mpr hj0
  rw [sumC, sumC, List.length_set,
    Finset.sum_eq_sum_diff_singleton_add hmem,
    Finset.sum_eq_sum_diff_singleton_add hmem
      (fun j => ((cl.getD j ⟨[]⟩).Points.map (g j)).sum)]
  have hdiff : ∀ j ∈ Finset.range cl.length \ {j0},
      (((cl.set j0 ⟨(cl.getD j0 ⟨[]⟩).Points ++ [x]⟩).getD j ⟨[]⟩).Points.map (g j)).sum
        = ((cl.getD j ⟨[]⟩).Points.map (g j)).sum := by
    intro j hj
    have hne : j0 ≠ j := fun hc => by
      rw [hc] at hj
      exact absurd (Finset.mem_sdiff.mp hj).2 (by simp)
    rw [getD_set_ne' cl j0 j _ _ hne]
  rw [Finset.sum_congr rfl hdiff, getD_set_eq' cl j0 _ _ hj0]
  rw [List.map_append, List.sum_append]
  simp [add_assoc]

lemma assignFold_sum (pts : List Point) (F : ℕ → ℕ) (g : ℕ → Point → ℚ)
    (step : List PointSet → ℕ → List PointSet)
    (hstep : ∀ cl i, step cl i
      = cl.set (F i) ⟨(cl.getD (F i) ⟨[]⟩).Points ++ [pts.getD i zeroPoint]⟩) :
    ∀ (idxs : List ℕ) (cl : List PointSet), (∀ i ∈ idxs, F i < cl.length) →
      sumC g (idxs.foldl step cl)
        = sumC g cl + (idxs.map (fun i => g (F i) (pts.getD i zeroPoint))).sum := by
  intro idxs
  induction idxs with
  | nil => intro cl hcl; simp
  | cons i idxs ih =>
    intro cl hcl
    rw [List.foldl_cons, hstep,
      ih _ (fun i' hi' => by
        rw [List.length_set]
        exact hcl i' (List.mem_cons_of_mem _ hi')),
      sumC_set_append g cl (F i) _ (hcl i (List.mem_cons_self _ _)),
      List.map_cons, List.sum_cons]
    ring

lemma assignFold_mem (pts : List Point) (F : ℕ → ℕ)
    (step : List PointSet → ℕ → List PointSet)
    (hstep : ∀ cl i, step cl i
      = cl.set (F i) ⟨(cl.getD (F i) ⟨[]⟩).Points ++ [pts.getD i zeroPoint]⟩)
    (base : List Point) :
    ∀ (idxs : List ℕ) (cl : List PointSet),
      (∀ j x, x ∈ (cl.getD j ⟨[]⟩).Points → x ∈ base) →
      (∀ i ∈ idxs, pts.getD i zeroPoint ∈ base) →
      ∀ j x, x ∈ ((idxs.foldl step cl).getD j ⟨[]⟩).Points → x ∈ base := by
  intro idxs
  induction idxs with
  | nil => intro cl hcl hin j x hx; exact hcl j x hx
  | cons i idxs ih =>
    intro cl hcl hin j x hx
    rw [List.foldl_cons, hstep] at hx
    refine ih _ ?_ (fun i' hi' => hin i' (List.mem_cons_of_mem _ hi')) j x hx
    intro j' y hy
    by_cases hrange : F i < cl.length
    · by_cases hj' : F i = j'
      · subst hj'
        rw [getD_set_eq' cl _ _ _ hrange] at hy
        rcases List.mem_append.mp hy with h | h
        · exact hcl (F i) y h
        · rw [List.mem_singleton.mp h]
          exact hin i (List.mem_cons_self _ _)
      · rw [getD_set_ne' cl _ _ _ _ hj'] at hy
        exact hcl j' y hy
    · rw [List.set_eq_of_length_le (by omega)] at hy
      exact hcl j' y hy

/-- The centroid written by `update` for cluster `j`: the cluster's mean,
or a fresh random point when the mean has no coordinates. -/
def updCentroid (X : Clustering) (rnd : ℕ → ℕ → ℕ → ℚ) (j : ℕ) : Point :=
  if ((X.Clusters.getD j ⟨[]⟩).Mean).Coordinates.length = 0
  then (createRandomStart (rnd j) X.points 1).Points.getD 0 zeroPoint
  else (X.Clusters.getD j ⟨[]⟩).Mean

lemma update_KMeans_getD (X : Clustering) (rnd : ℕ → ℕ → ℕ → ℚ) (j : ℕ)
    (hj : j < X.Clusters.length) (hjK : j < X.KMeans.Points.length) :
    (X.update rnd).1.KMeans.Points.getD j zeroPoint = updCentroid X rnd j := by
  have h := foldl_range_set_getD (updCentroid X rnd) zeroPoint
    (fun kms clusterID =>
      kms.set clusterID
        (if ((X.Clusters.getD clusterID ⟨[]⟩).Mean).Coordinates.length = 0
         then (createRandomStart (rnd clusterID) X.points 1).Points.getD 0 zeroPoint
         else (X.Clusters.getD clusterID ⟨[]⟩).Mean))
    (fun acc i => rfl) X.Clusters.length X.KMeans.Points j
  calc (X.update rnd).1.KMeans.Points.getD j zeroPoint
      = if j < X.Clusters.length ∧ j < X.KMeans.Points.length
        then updCentroid X rnd j else X.KMeans.Points.getD j zeroPoint := h
    _ = updCentroid X rnd j := if_pos ⟨hj, hjK⟩

lemma createRandomStart_getD_dim (rnd : ℕ → ℕ → ℚ) (points : PointSet)
    (dd : ℕ) (hne : points.Points ≠ [])
    (hdim0 : (points.Points.getD 0 zeroPoint).Dimension = dd) (hd : 0 < dd) :
    ((createRandomStart rnd points 1).Points.getD 0 zeroPoint).Coordinates.length
      = dd := by
  have hb := lowerAndUpperBounds_length points hne
  rw [createRandomStart, if_neg (by omega)]
  rw [List.getD_eq_getElem?_getD] at hdim0
  simp [hdim0]

lemma updCentroid_dim (X : Clustering) (rnd : ℕ → ℕ → ℕ → ℚ) (j dd : ℕ)
    (hne : X.points.Points ≠ [])
    (hdim0 : (X.points.Points.getD 0 zeroPoint).Dimension = dd) (hd : 0 < dd)
    (hcl : ∀ x ∈ (X.Clusters.getD j ⟨[]⟩).Points, x.Dimension = dd) :
    (updCentroid X rnd j).Coordinates.length = dd := by
  rw [updCentroid]
  by_cases hz : ((X.Clusters.getD j ⟨[]⟩).Mean).Coordinates.length = 0
  · rw [if_pos hz]
    exact createRandomStart_getD_dim _ _ _ hne hdim0 hd
  · rw [if_neg hz]
    rcases hc : (X.Clusters.getD j ⟨[]⟩).Points with _ | ⟨p, c'⟩
    · exact absurd (by rw [PointSet.Mean, if_pos (by rw [hc]; rfl)]; rfl) hz
    · have := mean_coords (X.Clusters.getD j ⟨[]⟩).Points dd
        (by rw [hc]; exact List.cons_ne_nil _ _) hcl
      exact this.1

/-- Non-empty clusters get their mean as the new centroid (the mean of a
non-empty positive-dimension cluster has coordinates, so no reseed). -/
lemma updCentroid_of_nonempty (X : Clustering) (rnd : ℕ → ℕ → ℕ → ℚ)
    (j dd : ℕ) (hd : 0 < dd)
    (hnej : (X.Clusters.getD j ⟨[]⟩).Points ≠ [])
    (hcl : ∀ x ∈ (X.Clusters.getD j ⟨[]⟩).Points, x.Dimension = dd) :
    updCentroid X rnd j = (X.Clusters.getD j ⟨[]⟩).Mean := by
  rw [updCentroid, if_neg]
  have hm := (mean_coords (X.Clusters.getD j ⟨[]⟩).Points dd hnej hcl).1
  have heta : (⟨(X.Clusters.getD j ⟨[]⟩).Points⟩ : PointSet)
      = X.Clusters.getD j ⟨[]⟩ := rfl
  rw [heta] at hm
  omega

lemma totalDist_eq_finsum (s : Clustering) :
    s.TotalDist
      = ∑ j in Finset.range s.KMeans.Points.length,
          ((s.Clusters.getD j ⟨[]⟩).Points.map
            (fun p => s.distanceMetric (s.KMeans.Points.getD j zeroPoint) p)).sum := by
  rw [Clustering.TotalDist, sum_list_range]

lemma replicate_getD_empty (k j : ℕ) :
    (List.replicate k (⟨[]⟩ : PointSet)).getD j ⟨[]⟩ = ⟨[]⟩ := by
  rcases Nat.lt_or_ge j k with h | h
  · rw [List.getD_eq_getElem _ _ (by simpa using h)]
    simp
  · exact List.getD_eq_default _ _ (by simpa using h)

lemma sumC_replicate_empty (g : ℕ → Point → ℚ) (k : ℕ) :
    sumC g (List.replicate k (⟨[]⟩ : PointSet)) = 0 := by
  rw [sumC]
  refine Finset.sum_eq_zero (fun j hj => ?_)
  rw [replicate_getD_empty]
  rfl

lemma getD_mem_of_lt {α : Type} (l : List α) (i : ℕ) (d : α)
    (h : i < l.length) : l.getD i d ∈ l := by
  rw [List.getD_eq_getElem _ _ h]
  exact List.getElem_mem h

/-- C2, amended: with the squared-Euclidean metric, the total intra-cluster
error is non-increasing across consecutive completed iterations (with no
epsilon needed in exact arithmetic), including iterations that reseed an
emptied cluster with an arbitrary random point: after any first iteration
from any well-formed state, a further iteration never increases `TotalDist`.
With other configured metrics, such as the repository's `RedMeanDistance`,
the error can increase (see the counterexample). -/
theorem totalDist_nonincreasing_euclidean
    (KM : Clustering) (R1 R2 : ℕ → ℕ → ℕ → ℚ) (acc1 acc2 : ℚ) (d : ℕ)
    (hmetric : KM.distanceMetric = EuclidianDistance)
    (hne : KM.points.Points ≠ [])
    (hdim : ∀ p ∈ KM.points.Points, p.Dimension = d)
    (hd : 0 < d)
    (hk : KM.KMeans.Points.length = KM.k) (hk1 : 0 < KM.k) :
    (((KM.iterate R1 acc1).1).iterate R2 acc2).1.TotalDist
      ≤ ((KM.iterate R1 acc1).1).TotalDist := by
  obtain ⟨h1K, h1C, h1k, h1p, h1m, h1metric⟩ := iterate_lengths KM R1 acc1 hk
  set s1 := (KM.iterate R1 acc1).1 with hs1def
  have h1metric' : s1.distanceMetric = EuclidianDistance := by
    rw [h1metric, hmetric]
  have h1pts : s1.points.Points = KM.points.Points := by rw [h1p]
  have hdim0 : (KM.points.Points.getD 0 zeroPoint).Dimension = d :=
    hdim _ (getD_mem_of_lt _ _ _ (List.length_pos.mpr hne))
  -- the two assignment states
  obtain ⟨ha1K, ha1p, ha1k, ha1m, ha1metric, ha1C⟩ := assign_components KM
  obtain ⟨ha2K, ha2p, ha2k, ha2m, ha2metric, ha2C⟩ := assign_components s1
  obtain ⟨hu2p, hu2k, hu2C, hu2m, hu2metric, hu2K⟩ :=
    update_components s1.assign R2
  obtain ⟨hu1p, hu1k, hu1C, hu1m, hu1metric, hu1K⟩ :=
    update_components KM.assign R1
  have hs2eq : ((s1.iterate R2 acc2).1) = (s1.assign.update R2).1 := rfl
  have hs1eq : s1 = (KM.assign.update R1).1 := rfl
  -- membership of assigned clusters in the source point set
  have hX1mem : ∀ j x, x ∈ ((KM.assign).Clusters.getD j ⟨[]⟩).Points
      → x ∈ KM.points.Points := by
    intro j x hx
    refine assignFold_mem KM.points.Points (fun i => ClosestMeanIndex KM i)
      _ (fun _ _ => rfl) KM.points.Points
      (List.range KM.points.Points.length)
      (List.replicate KM.k (⟨[]⟩ : PointSet))
      (fun j x hx => by rw [replicate_getD_empty] at hx; exact absurd hx (by simp))
      (fun i hi => getD_mem_of_lt _ _ _ (List.mem_range.mp hi)) j x hx
  have hX2mem : ∀ j x, x ∈ ((s1.assign).Clusters.getD j ⟨[]⟩).Points
      → x ∈ KM.points.Points := by
    intro j x hx
    refine assignFold_mem s1.points.Points (fun i => ClosestMeanIndex s1 i)
      _ (fun _ _ => rfl) KM.points.Points
      (List.range s1.points.Points.length)
      (List.replicate s1.k (⟨[]⟩ : PointSet))
      (fun j x hx => by rw [replicate_getD_empty] at hx; exact absurd hx (by simp))
      (fun i hi => by
        rw [h1pts]
        exact getD_mem_of_lt _ _ _ (by rw [← h1pts]; exact List.mem_range.mp hi))
      j x hx
  -- dimensions of the first-iteration centroids
  have hC1dim : ∀ j, j < KM.k
      → (s1.KMeans.Points.getD j zeroPoint).Coordinates.length = d := by
    intro j hj
    have hgd : s1.KMeans.Points.getD j zeroPoint = updCentroid KM.assign R1 j := by
      rw [hs1eq]
      exact update_KMeans_getD KM.assign R1 j (by rw [ha1C]; exact hj)
        (by rw [ha1K, hk]; exact hj)
    rw [hgd]
    refine updCentroid_dim KM.assign R1 j d ?_ ?_ hd ?_
    · rw [ha1p]; exact hne
    · rw [ha1p]; exact hdim0
    · intro x hx
      exact hdim x (hX1mem j x hx)
  -- closest-mean indices are in range
  have hKMne : KM.KMeans.Points ≠ [] :=
    List.ne_nil_of_length_pos (by omega)
  have hs1Kne : s1.KMeans.Points ≠ [] :=
    List.ne_nil_of_length_pos (by omega)
  have hF1lt : ∀ i, i < KM.points.Points.length
      → ClosestMeanIndex KM i < KM.k := by
    intro i hi
    have := (closestMeanIndex_least_argmin KM i hKMne hi).1
    omega
  have hF2lt : ∀ i, i < KM.points.Points.length
      → ClosestMeanIndex s1 i < KM.k := by
    intro i hi
    have := (closestMeanIndex_least_argmin s1 i hs1Kne (by rw [h1pts]; exact hi)).1
    omega
  -- the centroid weight used throughout
  set gC1 : ℕ → Point → ℚ :=
    fun j p => EuclidianDistance (s1.KMeans.Points.getD j zeroPoint) p
    with hgC1
  -- Total distance after the second iteration
  have hTD2 : ((s1.iterate R2 acc2).1).TotalDist
      = ∑ j in Finset.range KM.k,
          (((s1.assign.Clusters.getD j ⟨[]⟩).Points).map
            (fun p => EuclidianDistance (updCentroid s1.assign R2 j) p)).sum := by
    rw [totalDist_eq_finsum, hs2eq]
    have hlen2 : ((s1.assign.update R2).1).KMeans.Points.length = KM.k := by
      rw [hu2K, ha2K]; omega
    rw [hlen2]
    refine Finset.sum_congr rfl (fun j hj => ?_)
    have hj' : j < KM.k := Finset.mem_range.mp hj
    have hgd : ((s1.assign.update R2).1).KMeans.Points.getD j zeroPoint
        = updCentroid s1.assign R2 j :=
      update_KMeans_getD s1.assign R2 j (by rw [ha2C]; omega)
        (by rw [ha2K]; omega)
    rw [hu2C, hgd, hu2metric, ha2metric, h1metric']
  -- Step 1: replace the second-iteration centroids by the first-iteration ones
  have hstep1 : ∑ j in Finset.range KM.k,
        (((s1.assign.Clusters.getD j ⟨[]⟩).Points).map
          (fun p => EuclidianDistance (updCentroid s1.assign R2 j) p)).sum
      ≤ ∑ j in Finset.range KM.k,
        (((s1.assign.Clusters.getD j ⟨[]⟩).Points).map (gC1 j)).sum := by
    refine Finset.sum_le_sum (fun j hj => ?_)
    rcases hc : ((s1.assign.Clusters.getD j ⟨[]⟩).Points) with _ | ⟨p, c'⟩
    · simp
    · have hnej : (s1.assign.Clusters.getD j ⟨[]⟩).Points ≠ [] := by
        rw [hc]; exact List.cons_ne_nil _ _
      have hcl : ∀ x ∈ (s1.assign.Clusters.getD j ⟨[]⟩).Points, x.Dimension = d :=
        fun x hx => hdim x (hX2mem j x hx)
      have hmean := updCentroid_of_nonempty s1.assign R2 j d hd hnej hcl
      rw [← hc, hmean, hgC1]
      have heta : (s1.assign.Clusters.getD j ⟨[]⟩).Mean
          = PointSet.Mean ⟨(s1.assign.Clusters.getD j ⟨[]⟩).Points⟩ := rfl
      rw [heta]
      exact cluster_mean_min _ d _ hnej hcl
        (hC1dim j (Finset.mem_range.mp hj))
  -- Step 2: the partition sums collapse to per-point sums
  have hsplit2 : ∑ j in Finset.range KM.k,
        (((s1.assign.Clusters.getD j ⟨[]⟩).Points).map (gC1 j)).sum
      = ((List.range s1.points.Points.length).map
          (fun i => gC1 (ClosestMeanIndex s1 i)
            (s1.points.Points.getD i zeroPoint))).sum := by
    have hC : (s1.assign).Clusters
        = (List.range s1.points.Points.length).foldl
            (fun cl pointIndex =>
              cl.set (ClosestMeanIndex s1 pointIndex)
                ⟨(cl.getD (ClosestMeanIndex s1 pointIndex) ⟨[]⟩).Points
                  ++ [s1.points.Points.getD pointIndex zeroPoint]⟩)
            (List.replicate s1.k (⟨[]⟩ : PointSet)) := rfl
    have hsum := assignFold_sum s1.points.Points
      (fun i => ClosestMeanIndex s1 i) gC1 _ (fun _ _ => rfl)
      (List.range s1.points.Points.length)
      (List.replicate s1.k (⟨[]⟩ : PointSet))
      (fun i hi => by
        rw [List.length_replicate, h1k]
        exact hF2lt i (by rw [← h1pts]; exact List.mem_range.mp hi))
    rw [sumC_replicate_empty, zero_add] at hsum
    have hlen : (s1.assign).Clusters.length = KM.k := by rw [ha2C]; omega
    calc ∑ j in Finset.range KM.k,
          (((s1.assign.Clusters.getD j ⟨[]⟩).Points).map (gC1 j)).sum
        = sumC gC1 (s1.assign).Clusters := by rw [sumC, hlen]
      _ = _ := by rw [hC, hsum]
  -- Step 3: each point is at least as close to its newly assigned centroid
  have hpoint : ((List.range s1.points.Points.length).map
        (fun i => gC1 (ClosestMeanIndex s1 i)
          (s1.points.Points.getD i zeroPoint))).sum
      ≤ ((List.range s1.points.Points.length).map
        (fun i => gC1 (ClosestMeanIndex KM i)
          (s1.points.Points.getD i zeroPoint))).sum := by
    refine List.sum_le_sum (fun i hi => ?_)
    have hi' : i < KM.points.Points.length := by
      rw [← h1pts]; exact List.mem_range.mp hi
    have hpt : s1.points.Points.getD i zeroPoint ∈ KM.points.Points := by
      rw [h1pts]
      exact getD_mem_of_lt _ _ _ hi'
    have hptdim : (s1.points.Points.getD i zeroPoint).Coordinates.length = d :=
      hdim _ hpt
    have hargmin := (closestMeanIndex_least_argmin s1 i hs1Kne
      (by rw [h1pts]; exact hi')).2.1 (ClosestMeanIndex KM i)
      (by rw [h1K]; exact hF1lt i hi')
    rw [h1metric'] at hargmin
    simp only [hgC1]
    have hsym1 : EuclidianDistance
        (s1.KMeans.Points.getD (ClosestMeanIndex s1 i) zeroPoint)
        (s1.points.Points.getD i zeroPoint)
      = EuclidianDistance (s1.points.Points.getD i zeroPoint)
        (s1.KMeans.Points.getD (ClosestMeanIndex s1 i) zeroPoint) := by
      refine euclid_symm _ _ ?_
      rw [hC1dim _ (hF2lt i hi'), hptdim]
    have hsym2 : EuclidianDistance
        (s1.KMeans.Points.getD (ClosestMeanIndex KM i) zeroPoint)
        (s1.points.Points.getD i zeroPoint)
      = EuclidianDistance (s1.points.Points.getD i zeroPoint)
        (s1.KMeans.Points.getD (ClosestMeanIndex KM i) zeroPoint) := by
      refine euclid_symm _ _ ?_
      rw [hC1dim _ (hF1lt i hi'), hptdim]
    rw [hsym1, hsym2]
    exact hargmin
  -- Step 4: the per-point sum for the old assignment is the old total
  have hsplit1 : ((List.range s1.points.Points.length).map
        (fun i => gC1 (ClosestMeanIndex KM i)
          (s1.points.Points.getD i zeroPoint))).sum
      = s1.TotalDist := by
    have hC : (KM.assign).Clusters
        = (List.range KM.points.Points.length).foldl
            (fun cl pointIndex =>
              cl.set (ClosestMeanIndex KM pointIndex)
                ⟨(cl.getD (ClosestMeanIndex KM pointIndex) ⟨[]⟩).Points
                  ++ [KM.points.Points.getD pointIndex zeroPoint]⟩)
            (List.replicate KM.k (⟨[]⟩ : PointSet)) := rfl
    have hsum := assignFold_sum KM.points.Points
      (fun i => ClosestMeanIndex KM i) gC1 _ (fun _ _ => rfl)
      (List.range KM.points.Points.length)
      (List.replicate KM.k (⟨[]⟩ : PointSet))
      (fun i hi => by
        rw [List.length_replicate]
        exact hF1lt i (List.mem_range.mp hi))
    rw [sumC_replicate_empty, zero_add] at hsum
    have hTD1 : s1.TotalDist = sumC gC1 (KM.assign).Clusters := by
      rw [totalDist_eq_finsum, sumC]
      have hl1 : s1.KMeans.Points.length = KM.k := by omega
      have hl2 : (KM.assign).Clusters.length = KM.k := ha1C
      rw [hl1, hl2]
      refine Finset.sum_congr rfl (fun j hj => ?_)
      have hCl : s1.Clusters = (KM.assign).Clusters := by
        rw [hs1eq, hu1C]
      rw [hCl]
      simp only [hgC1, h1metric']
    rw [hTD1, hC, hsum]
    simp only [h1pts]
  calc (((KM.iterate R1 acc1).1).iterate R2 acc2).1.TotalDist
      = ∑ j in Finset.range KM.k,
          (((s1.assign.Clusters.getD j ⟨[]⟩).Points).map
            (fun p => EuclidianDistance (updCentroid s1.assign R2 j) p)).sum := hTD2
    _ ≤ ∑ j in Finset.range KM.k,
          (((s1.assign.Clusters.getD j ⟨[]⟩).Points).map (gC1 j)).sum := hstep1
    _ = ((List.range s1.points.Points.length).map
          (fun i => gC1 (ClosestMeanIndex s1 i)
            (s1.points.Points.getD i zeroPoint))).sum := hsplit2
    _ ≤ ((List.range s1.points.Points.length).map
          (fun i => gC1 (ClosestMeanIndex KM i)
            (s1.points.Points.getD i zeroPoint))).sum := hpoint
    _ = s1.TotalDist := hsplit1

/-! ### Concrete instantiations of the theorems with hypotheses -/

theorem branchByMedian_partition_witness :
    ((⟨[⟨[1, 2], 0⟩, ⟨[0, 5], 1⟩, ⟨[2, 3], 2⟩]⟩ : PointSet).BranchByMedian 0).1.Kardinality
        + ((⟨[⟨[1, 2], 0⟩, ⟨[0, 5], 1⟩, ⟨[2, 3], 2⟩]⟩ : PointSet).BranchByMedian 0).2.1.Kardinality
        = (⟨[⟨[1, 2], 0⟩, ⟨[0, 5], 1⟩, ⟨[2, 3], 2⟩]⟩ : PointSet).Kardinality - 1
      ∧ (∀ p ∈ ((⟨[⟨[1, 2], 0⟩, ⟨[0, 5], 1⟩, ⟨[2, 3], 2⟩]⟩ : PointSet).BranchByMedian 0).1.Points,
          coordD p 0 ≤ coordD ((⟨[⟨[1, 2], 0⟩, ⟨[0, 5], 1⟩, ⟨[2, 3], 2⟩]⟩ : PointSet).BranchByMedian 0).2.2 0)
      ∧ (∀ p ∈ ((⟨[⟨[1, 2], 0⟩, ⟨[0, 5], 1⟩, ⟨[2, 3], 2⟩]⟩ : PointSet).BranchByMedian 0).2.1.Points,
          coordD ((⟨[⟨[1, 2], 0⟩, ⟨[0, 5], 1⟩, ⟨[2, 3], 2⟩]⟩ : PointSet).BranchByMedian 0).2.2 0 ≤ coordD p 0) :=
  branchByMedian_partition ⟨[⟨[1, 2], 0⟩, ⟨[0, 5], 1⟩, ⟨[2, 3], 2⟩]⟩ 0 2
    (by decide) (by decide) (by decide)

theorem branchByMedian_receiver_sorted_witness :
    ((⟨[⟨[4], 0⟩, ⟨[2], 1⟩, ⟨[3], 2⟩]⟩ : PointSet).SortByAxis 0).Points.Perm
        [⟨[4], 0⟩, ⟨[2], 1⟩, ⟨[3], 2⟩]
      ∧ List.Sorted (axisLe 0)
          ((⟨[⟨[4], 0⟩, ⟨[2], 1⟩, ⟨[3], 2⟩]⟩ : PointSet).SortByAxis 0).Points
      ∧ ((⟨[⟨[4], 0⟩, ⟨[2], 1⟩, ⟨[3], 2⟩]⟩ : PointSet).BranchByMedian 0).1.Points
          ++ ((⟨[⟨[4], 0⟩, ⟨[2], 1⟩, ⟨[3], 2⟩]⟩ : PointSet).BranchByMedian 0).2.2
            :: ((⟨[⟨[4], 0⟩, ⟨[2], 1⟩, ⟨[3], 2⟩]⟩ : PointSet).BranchByMedian 0).2.1.Points
          = ((⟨[⟨[4], 0⟩, ⟨[2], 1⟩, ⟨[3], 2⟩]⟩ : PointSet).SortByAxis 0).Points :=
  branchByMedian_receiver_sorted ⟨[⟨[4], 0⟩, ⟨[2], 1⟩, ⟨[3], 2⟩]⟩ 0 1
    (by decide) (by decide) (by decide)

/-- Concrete clustering state used to instantiate the assignment theorem. -/
def w5KM : Clustering :=
  ⟨⟨[⟨[0], 0⟩, ⟨[1], 1⟩]⟩, ⟨[⟨[5], 2⟩]⟩, 2, [], 0, EuclidianDistance⟩

theorem closestMeanIndex_least_argmin_witness :
    ClosestMeanIndex w5KM 0 < w5KM.KMeans.Points.length
      ∧ (∀ j < w5KM.KMeans.Points.length,
          w5KM.distanceMetric (w5KM.points.Points.getD 0 zeroPoint)
              (w5KM.KMeans.Points.getD (ClosestMeanIndex w5KM 0) zeroPoint)
            ≤ w5KM.distanceMetric (w5KM.points.Points.getD 0 zeroPoint)
              (w5KM.KMeans.Points.getD j zeroPoint))
      ∧ (∀ j < ClosestMeanIndex w5KM 0,
          w5KM.distanceMetric (w5KM.points.Points.getD 0 zeroPoint)
              (w5KM.KMeans.Points.getD (ClosestMeanIndex w5KM 0) zeroPoint)
            < w5KM.distanceMetric (w5KM.points.Points.getD 0 zeroPoint)
              (w5KM.KMeans.Points.getD j zeroPoint)) :=
  closestMeanIndex_least_argmin w5KM 0 (by decide) (by decide)

theorem cluster_count_invariant_witness :
    (stateAt (fun _ _ _ _ => 0) 1
        (CreateKMeansProblem (fun _ _ => 0) ⟨[⟨[2], 0⟩]⟩ 2 EuclidianDistance)
        2).Clusters.length = 2
      ∧ (stateAt (fun _ _ _ _ => 0) 1
          (CreateKMeansProblem (fun _ _ => 0) ⟨[⟨[2], 0⟩]⟩ 2 EuclidianDistance)
          2).KMeans.Points.length = 2 :=
  cluster_count_invariant (fun _ _ => 0) ⟨[⟨[2], 0⟩]⟩ 2 EuclidianDistance
    (fun _ _ _ _ => 0) 1 (by decide) (by decide) 2

/-- Concrete clustering state with an emptied cluster, for the reseed
theorem. -/
def w8KM : Clustering :=
  ⟨⟨[⟨[1], 1⟩]⟩, ⟨[⟨[7], 0⟩]⟩, 1, [⟨[]⟩], 0, EuclidianDistance⟩

theorem mean_empty_reseed_witness :
    PointSet.Mean ⟨[]⟩ = (⟨[], 0⟩ : Point)
      ∧ ((w8KM.update (fun _ _ _ => 0)).1.KMeans.Points.getD 0 zeroPoint
          = if ((w8KM.Clusters.getD 0 ⟨[]⟩).Mean).Coordinates.length = 0
            then (createRandomStart ((fun _ _ _ => (0 : ℚ)) 0) w8KM.points 1).Points.getD 0 zeroPoint
            else (w8KM.Clusters.getD 0 ⟨[]⟩).Mean)
      ∧ ((w8KM.Clusters.getD 0 ⟨[]⟩).Points = []
          → ((w8KM.Clusters.getD 0 ⟨[]⟩).Mean).Coordinates.length = 0) :=
  mean_empty_reseed w8KM (fun _ _ _ => 0) 0 (by decide) (by decide)

/-- Concrete clustering state for the termination theorem. -/
def w3KM : Clustering :=
  ⟨⟨[⟨[0], 0⟩]⟩, ⟨[⟨[0], 1⟩]⟩, 1, [⟨[]⟩], 0, EuclidianDistance⟩

theorem cluster_termination_characterisation_witness :
    (w3KM.Cluster (fun _ _ _ _ => 0) 1 1).2 ≤ iterationLimit
      ∧ ((w3KM.Cluster (fun _ _ _ _ => 0) 1 1).2 < iterationLimit
          → (streak (fun _ _ _ _ => 0) 1 w3KM
              (w3KM.Cluster (fun _ _ _ _ => 0) 1 1).2 : ℤ) = 1)
      ∧ (∀ t < (w3KM.Cluster (fun _ _ _ _ => 0) 1 1).2,
          (streak (fun _ _ _ _ => 0) 1 w3KM t : ℤ) < 1)
      ∧ (w3KM.Cluster (fun _ _ _ _ => 0) 1 1).1
          = stateAt (fun _ _ _ _ => 0) 1 w3KM
              (w3KM.Cluster (fun _ _ _ _ => 0) 1 1).2 :=
  cluster_termination_characterisation (fun _ _ _ _ => 0) 1 1 w3KM (by decide)

theorem kdtree_search_sound_witness :
    ((generateKDTreeFromPoints ⟨[⟨[0, 0], 0⟩]⟩ 2).findNearestNeighborTo
          ⟨[1, 1], 9⟩ EuclidianDistance 2).1
        ∈ [⟨[0, 0], 0⟩]
      ∧ ((generateKDTreeFromPoints ⟨[⟨[0, 0], 0⟩]⟩ 2).findNearestNeighborTo
          ⟨[1, 1], 9⟩ EuclidianDistance 2).2
        = EuclidianDistance
            ((generateKDTreeFromPoints ⟨[⟨[0, 0], 0⟩]⟩ 2).findNearestNeighborTo
              ⟨[1, 1], 9⟩ EuclidianDistance 2).1
            ⟨[1, 1], 9⟩ :=
  kdtree_search_sound ⟨[⟨[0, 0], 0⟩]⟩ ⟨[1, 1], 9⟩ EuclidianDistance 2
    (by decide)

/-- Concrete clustering state for the monotonicity theorem. -/
def w2KM : Clustering :=
  ⟨⟨[⟨[0], 0⟩]⟩, ⟨[⟨[5], 1⟩]⟩, 1, [⟨[]⟩], 0, EuclidianDistance⟩

theorem totalDist_nonincreasing_euclidean_witness :
    (((w2KM.iterate (fun _ _ _ => 0) 1).1).iterate (fun _ _ _ => 0) 1).1.TotalDist
      ≤ ((w2KM.iterate (fun _ _ _ => 0) 1).1).TotalDist :=
  totalDist_nonincreasing_euclidean w2KM (fun _ _ _ => 0) (fun _ _ _ => 0) 1 1 1
    rfl (by decide) (by decide) (by decide) (by decide) (by decide)

end Dither
